import Mathlib

/-!
Verification of the receipt-OCR text-interpretation core of the
Personal-finance-application repository.

The development shallowly embeds the JavaScript source:

* `JsRe`   — a small backtracking regular-expression engine reproducing the
  JavaScript semantics of the specific pattern tables used by the source
  (leftmost match, greedy/lazy quantifiers over single-character classes,
  capture groups, one-character negative lookahead, global scanning).
* `JsDate` — proleptic-Gregorian calendar arithmetic on epoch days.  A JS
  `Date` holding a midnight instant is modelled by its epoch day (an `Int`).
  The process time zone is modelled as UTC and the time-of-day component of
  `new Date()` is abstracted to midnight; every comparison the source makes
  between candidate dates and `now` is insensitive to this within the claims
  proved here (all quantities are whole days).
* `DP`    — the date-parser module (src/unnamed/part_003).
* `Ocr`   — backend/services/ocrService.js parsing/validation pipeline.
* `Tess`  — the divergent part of backend/services/tesseractOcrService.js
  (its `validateParsedData`, whose third rule appends instead of replacing).

Monetary amounts captured by the `\d+\.\d{2}` patterns are modelled in
integer cents (`Int`), which is exact for these two-decimal captures; the
30-percent comparison of the validator is stated over the same exact values
(the IEEE-754 rounding of the JS doubles is abstracted, and every inequality
used by a theorem below is robust to it).
-/

namespace JsRe

/-- JS `\d`. -/
def jsDigit (c : Char) : Bool := '0' ≤ c && c ≤ '9'

/-- JS `\s`, restricted to its ASCII members (space, tab, LF, VT, FF, CR).
The Unicode space members never occur in the texts analysed here. -/
def jsSpace (c : Char) : Bool :=
  c = ' ' || c = '\t' || c = '\n' || c = '\x0b' || c = '\x0c' || c = '\r'

/-- JS `\w` (ASCII word character). -/
def jsWord (c : Char) : Bool :=
  jsDigit c || ('a' ≤ c && c ≤ 'z') || ('A' ≤ c && c ≤ 'Z') || c = '_'

/-- JS `.` in a non-dotall regex: any character except a line terminator. -/
def jsDot (c : Char) : Bool := !(c = '\n' || c = '\r')

/-- ASCII-case-insensitive character comparison (JS `i` flag). -/
def ciEq (a b : Char) : Bool := a.toLower = b.toLower

/-- Regular expressions as used by the pattern tables of the source: every
quantifier in those tables applies to a single-character class, so `rep`
carries a class rather than a sub-expression. -/
inductive RE where
  | eps : RE
  | cls (p : Char → Bool) : RE
  | lit (cs : List Char) (ci : Bool) : RE
  | seq (a b : RE) : RE
  | alt (a b : RE) : RE
  | rep (lo : Nat) (hi : Option Nat) (greedy : Bool) (p : Char → Bool) : RE
  | grp (i : Nat) (r : RE) : RE
  | nla (p : Char → Bool) : RE
  | eol : RE

/-- Captured groups: slot 0 holds the whole match, slot `i` group `i`. -/
abbrev Caps := List (Option (List Char))

def Caps.empty : Caps := [none, none, none, none]

def Caps.set (g : Caps) (i : Nat) (v : List Char) : Caps :=
  List.set g i (some v)

/-- Literal matching (optionally case-insensitive). -/
def litMatch (ci : Bool) : List Char → List Char → Option (List Char)
  | [], s => some s
  | _ :: _, [] => none
  | k :: ks, c :: s =>
      if (if ci then ciEq k c else k = c) then litMatch ci ks s else none

/-- Optional part of a counted repetition of a one-character class, with
`fuel` remaining iterations.  Greedy tries the longer continuation first,
lazy the shorter one. -/
def repOpt (greedy : Bool) (p : Char → Bool) :
    Nat → List Char → (List Char → Option Caps) → Option Caps
  | 0, s, k => k s
  | _ + 1, [], k => k []
  | fuel + 1, c :: rest, k =>
      if p c then
        if greedy then
          match repOpt greedy p fuel rest k with
          | some r => some r
          | none => k (c :: rest)
        else
          match k (c :: rest) with
          | some r => some r
          | none => repOpt greedy p fuel rest k
      else k (c :: rest)

/-- Mandatory part of a counted repetition: exactly `lo` characters of `p`. -/
def repMin (p : Char → Bool) : Nat → List Char → (List Char → Option Caps) → Option Caps
  | 0, s, k => k s
  | _ + 1, [], _ => none
  | lo + 1, c :: rest, k => if p c then repMin p lo rest k else none

/-- Backtracking matcher in continuation-passing style.  The continuation
receives the remaining input and the capture state. -/
def mtch : RE → List Char → Caps → (List Char → Caps → Option Caps) → Option Caps
  | .eps, s, g, k => k s g
  | .cls p, s, g, k =>
      match s with
      | [] => none
      | c :: rest => if p c then k rest g else none
  | .lit cs ci, s, g, k =>
      match litMatch ci cs s with
      | some rest => k rest g
      | none => none
  | .seq a b, s, g, k => mtch a s g (fun s2 g2 => mtch b s2 g2 k)
  | .alt a b, s, g, k =>
      match mtch a s g k with
      | some r => some r
      | none => mtch b s g k
  | .rep lo hi greedy p, s, g, k =>
      repMin p lo s (fun s2 =>
        repOpt greedy p (match hi with | some h => h - lo | none => s2.length) s2
          (fun s3 => k s3 g))
  | .grp i r, s, g, k =>
      mtch r s g (fun s2 g2 => k s2 (g2.set i (s.take (s.length - s2.length))))
  | .nla p, s, g, k =>
      match s with
      | [] => k s g
      | c :: _ => if p c then none else k s g
  | .eol, s, g, k => if s.isEmpty then k s g else none

/-- Result of one successful match: index, matched text, captures. -/
structure M where
  idx : Nat
  matched : List Char
  groups : Caps
deriving DecidableEq

/-- Anchored match at the start of `s`, returning matched prefix and captures
(the matched prefix is stored in capture slot 0 by the continuation). -/
def matchAtP (re : RE) (s : List Char) : Option (List Char × Caps) :=
  match mtch re s Caps.empty
      (fun rest g => some (Caps.set g 0 (s.take (s.length - rest.length)))) with
  | some g =>
      match List.get? g 0 with
      | some (some m) => some (m, g)
      | _ => none
  | none => none

/-- Leftmost (first) match, as JS `String.prototype.match` without `g`. -/
def search (re : RE) : List Char → Nat → Option M
  | s, i =>
      match matchAtP re s with
      | some (m, g) => some ⟨i, m, g⟩
      | none =>
          match s with
          | [] => none
          | _ :: rest => search re rest (i + 1)

/-- All matches in order, as iterated `RegExp.exec` with the `g` flag
(the scan resumes after each match; every pattern used here only produces
non-empty matches, and the `fuel` bound of one step per character makes the
recursion total). -/
def allMatches (re : RE) : Nat → List Char → Nat → List M
  | 0, _, _ => []
  | _ + 1, [], _ =>
      match matchAtP re [] with
      | some (m, g) => [⟨0, m, g⟩]
      | none => []
  | fuel + 1, s, i =>
      match search re s i with
      | none => []
      | some m =>
          let len := m.matched.length
          let skip := (m.idx - i) + (if len = 0 then 1 else len)
          ⟨m.idx, m.matched, m.groups⟩ ::
            allMatches re fuel (s.drop skip) (i + skip)

/-- Entry point for global scanning. -/
def execAll (re : RE) (s : List Char) : List M :=
  allMatches re (s.length + 1) s 0

/-- Boolean test, as JS `RegExp.prototype.test`. -/
def test (re : RE) (s : List Char) : Bool :=
  (search re s 0).isSome

/-- Group accessor: `m[i]` of a JS match object. -/
def M.grp (m : M) (i : Nat) : Option (List Char) :=
  match List.get? m.groups i with
  | some v => v
  | none => none

/-- Sequence of several expressions. -/
def seqs : List RE → RE
  | [] => .eps
  | [r] => r
  | r :: rs => .seq r (seqs rs)

/-- Alternation over a list (leftmost alternative preferred). -/
def alts : List RE → RE
  | [] => .cls (fun _ => false)
  | [r] => r
  | r :: rs => .alt r (alts rs)

def str (s : String) : RE := .lit s.data false

def strci (s : String) : RE := .lit s.data true

end JsRe

namespace JsDate

/-- Epoch day of a civil date (proleptic Gregorian), `m` in 1..12; a day
component outside the month length extends linearly, which matches the
day-of-month rollover of the JS `MakeDay` operation. -/
def daysFromCivil (y m d : Int) : Int :=
  let y2 := if m ≤ 2 then y - 1 else y
  let era := y2.fdiv 400
  let yoe := y2 - era * 400
  let doy := (153 * (if 2 < m then m - 3 else m + 9) + 2).fdiv 5 + d - 1
  let doe := yoe * 365 + yoe.fdiv 4 - yoe.fdiv 100 + doy
  era * 146097 + doe - 719468

/-- Civil date (year, month, day) of an epoch day. -/
def civilFromDays (z0 : Int) : Int × Int × Int :=
  let z := z0 + 719468
  let era := z.fdiv 146097
  let doe := z - era * 146097
  let yoe := (doe - doe.fdiv 1460 + doe.fdiv 36524 - doe.fdiv 146096).fdiv 365
  let y := yoe + era * 400
  let doy := doe - (365 * yoe + yoe.fdiv 4 - yoe.fdiv 100)
  let mp := (5 * doy + 2).fdiv 153
  let d := doy - (153 * mp + 2).fdiv 5 + 1
  let m := mp + (if mp < 10 then 3 else -9)
  (y + (if m ≤ 2 then 1 else 0), m, d)

def yearOf (e : Int) : Int := (civilFromDays e).1

/-- JS `new Date(y, m0, d)` (month index `m0` based at 0, both month and day
roll over), modelled as the epoch day of the resulting midnight instant. -/
def mkDate (y m0 d : Int) : Int :=
  daysFromCivil (y + m0.fdiv 12) (m0.fmod 12 + 1) d

def isLeap (y : Int) : Bool :=
  (y % 4 = 0 && ¬ y % 100 = 0) || y % 400 = 0

def daysInMonth (y m : Int) : Int :=
  if m = 2 then (if isLeap y then 29 else 28)
  else if m = 4 || m = 6 || m = 9 || m = 11 then 30
  else 31

/-- JS parsing of an ISO `YYYY-MM-DD` date string: strict calendar
validation, `Invalid Date` (here `none`) otherwise. -/
def isoStrict (y m d : Int) : Option Int :=
  if 1 ≤ m && m ≤ 12 && 1 ≤ d && d ≤ daysInMonth y m then
    some (daysFromCivil y m d)
  else none

def padTo (w : Nat) (s : String) : String :=
  String.mk (List.replicate (w - s.length) '0') ++ s

/-- `date.toISOString().split('T')[0]` for a midnight instant. -/
def isoStringOfDay (e : Int) : String :=
  let c := civilFromDays e
  padTo 4 (toString c.1.toNat) ++ "-" ++ padTo 2 (toString c.2.1.toNat) ++ "-" ++
    padTo 2 (toString c.2.2.toNat)

end JsDate

/-- `parseInt` on a non-empty all-digit capture. -/
def toNatD (cs : List Char) : Nat :=
  cs.foldl (fun a c => a * 10 + (c.toNat - 48)) 0

/-- `parseFloat` on a `\d+\.\d{2}` capture — integer digits `ip`, the two
decimal digits `f1 f2` — represented in cents. -/
def amtVal (ip : List Char) (f1 f2 : Char) : Int :=
  toNatD ip * 100 + toNatD [f1, f2]

/-- Substring test (`String.prototype.includes`). -/
def containsSeq (needle : List Char) : List Char → Bool
  | [] => needle.isEmpty
  | c :: rest => needle.isPrefixOf (c :: rest) || containsSeq needle rest

def lowerAll (cs : List Char) : List Char := cs.map Char.toLower

namespace DP

open JsRe JsDate

/-- Capture group `g` of `lo` to `hi` digits. -/
def digitsG (lo hi g : Nat) : RE := .grp g (.rep lo (some hi) true jsDigit)

/-- The separator class `[-\/.]`. -/
def sepCls (c : Char) : Bool := c = '-' || c = '/' || c = '.'

def sep : RE := .cls sepCls

/-- The class `[.,\s]`. -/
def dcs (c : Char) : Bool := c = '.' || c = ',' || jsSpace c

/-- The class `[:\s]`. -/
def colsp (c : Char) : Bool := c = ':' || jsSpace c

/-- `[a-z]` under the `i` flag. -/
def azci (c : Char) : Bool := ('a' ≤ c && c ≤ 'z') || ('A' ≤ c && c ≤ 'Z')

/-- `[action]` under the `i` flag. -/
def actionCls (c : Char) : Bool :=
  let l := c.toLower
  l = 'a' || l = 'c' || l = 't' || l = 'i' || l = 'o' || l = 'n'

def monthAbbrs : List String :=
  ["Jan", "Feb", "Mar", "Apr", "May", "Jun", "Jul", "Aug", "Sep", "Oct", "Nov", "Dec"]

def monthFulls : List String :=
  ["January", "February", "March", "April", "May", "June", "July", "August",
   "September", "October", "November", "December"]

/-- `/(\d{1,2})[-\/.](\d{1,2})[-\/.](\d{4})/g` (shared by US_FULL and EU_FULL). -/
def reNumFull : RE := seqs [digitsG 1 2 1, sep, digitsG 1 2 2, sep, digitsG 4 4 3]

/-- `/(\d{4})[-\/.](\d{1,2})[-\/.](\d{1,2})/g`. -/
def reIso : RE := seqs [digitsG 4 4 1, sep, digitsG 1 2 2, sep, digitsG 1 2 3]

/-- `/(\d{1,2})[-\/.](\d{1,2})[-\/.](\d{2})(?!\d)/g`. -/
def reShortYear : RE :=
  seqs [digitsG 1 2 1, sep, digitsG 1 2 2, sep, digitsG 2 2 3, .nla jsDigit]

/-- `/(Jan|Feb|Mar|Apr|May|Jun|Jul|Aug|Sep|Oct|Nov|Dec)[a-z]*[.,\s]+(\d{1,2})[.,\s]+(\d{2,4})/gi`. -/
def reMonthNameShort : RE :=
  seqs [.grp 1 (alts (monthAbbrs.map strci)), .rep 0 none true azci,
    .rep 1 none true dcs, digitsG 1 2 2, .rep 1 none true dcs, digitsG 2 4 3]

/-- `/(January|…|December)[.,\s]+(\d{1,2})[.,\s]+(\d{2,4})/gi`. -/
def reMonthNameFull : RE :=
  seqs [.grp 1 (alts (monthFulls.map strci)),
    .rep 1 none true dcs, digitsG 1 2 2, .rep 1 none true dcs, digitsG 2 4 3]

/-- `/(\d{1,2})[.,\s]+(January|…|December)[.,\s]+(\d{2,4})/gi`. -/
def reReverseMonthName : RE :=
  seqs [digitsG 1 2 1, .rep 1 none true dcs, .grp 2 (alts (monthFulls.map strci)),
    .rep 1 none true dcs, digitsG 2 4 3]

/-- `/(\d{4})(\d{2})(\d{2})(?!\d)/g`. -/
def reCompact : RE := seqs [digitsG 4 4 1, digitsG 2 2 2, digitsG 2 2 3, .nla jsDigit]

/-- `/(\d{1,2})[-\/.](\d{1,2})[-\/.](\d{2,4})\s+\d{1,2}:\d{2}/g`. -/
def reWithTime : RE :=
  seqs [digitsG 1 2 1, sep, digitsG 1 2 2, sep, digitsG 2 4 3,
    .rep 1 none true jsSpace, .rep 1 (some 2) true jsDigit, .cls (fun c => c = ':'),
    .rep 2 (some 2) true jsDigit]

/-- `/date[:\s]*(\d{1,2})[-\/.](\d{1,2})[-\/.](\d{2,4})/gi`. -/
def reReceiptDate : RE :=
  seqs [strci "date", .rep 0 none true colsp, digitsG 1 2 1, sep, digitsG 1 2 2,
    sep, digitsG 2 4 3]

/-- `/trans[action]*[:\s]*(\d{1,2})[-\/.](\d{1,2})[-\/.](\d{2,4})/gi`. -/
def reTransactionDate : RE :=
  seqs [strci "trans", .rep 0 none true actionCls, .rep 0 none true colsp,
    digitsG 1 2 1, sep, digitsG 1 2 2, sep, digitsG 2 4 3]

/-- The tags of the pattern table of `extractDateFromText`. -/
inductive DTy where
  | usFull | euFull | iso | shortYear | monthNameShort | monthNameFull
  | reverseMonthName | compact | withTime | receiptDate | transactionDate
deriving DecidableEq

/-- `normalizeYear`. -/
def normalizeYear (year : Int) : Int :=
  if 1900 ≤ year then year
  else if year ≤ 99 then (if year ≤ 30 then 2000 + year else 1900 + year)
  else year

/-- `parseUSDate` (`none` models the thrown error). -/
def parseUSDate (month day year : Nat) : Option Int :=
  let y := normalizeYear year
  if 12 < month || 31 < day then none
  else some (mkDate y ((month : Int) - 1) day)

/-- `parseEuropeanDate` (`none` models the thrown error). -/
def parseEuropeanDate (day month year : Nat) : Option Int :=
  let y := normalizeYear year
  if 12 < month || 31 < day then none
  else some (mkDate y ((month : Int) - 1) day)

/-- `isValidDate` applied to a possibly-invalid date (`none` = `NaN` epoch).
`now` is modelled by the current epoch day `today`. -/
def isValidDate (today : Int) : Option Int → Bool
  | none => false
  | some d => daysFromCivil (yearOf today - 10) 1 1 ≤ d && d ≤ today + 7

/-- `parseAmbiguousDate`. -/
def parseAmbiguousDate (today : Int) (num1 num2 : Nat) (year : Int) : Int :=
  let y := normalizeYear year
  if 12 < num1 then mkDate y ((num2 : Int) - 1) num1
  else if 12 < num2 then mkDate y ((num1 : Int) - 1) num2
  else
    let usDate := mkDate y ((num1 : Int) - 1) num2
    let euDate := mkDate y ((num2 : Int) - 1) num1
    if isValidDate today (some usDate) && !isValidDate today (some euDate) then usDate
    else if isValidDate today (some euDate) && !isValidDate today (some usDate) then euDate
    else usDate

/-- `parseShortYear`: normalizes the 2-digit year and defers to
`parseAmbiguousDate` (which re-normalizes the already 4-digit year, a no-op). -/
def parseShortYear (today : Int) (first second year : Nat) : Int :=
  parseAmbiguousDate today first second (normalizeYear year)

/-- The month-name lookup table of `parseMonthNameDate`. -/
def monthMap (s : List Char) : Option Int :=
  if s = "jan".data || s = "january".data then some 0
  else if s = "feb".data || s = "february".data then some 1
  else if s = "mar".data || s = "march".data then some 2
  else if s = "apr".data || s = "april".data then some 3
  else if s = "may".data then some 4
  else if s = "jun".data || s = "june".data then some 5
  else if s = "jul".data || s = "july".data then some 6
  else if s = "aug".data || s = "august".data then some 7
  else if s = "sep".data || s = "september".data then some 8
  else if s = "oct".data || s = "october".data then some 9
  else if s = "nov".data || s = "november".data then some 10
  else if s = "dec".data || s = "december".data then some 11
  else none

/-- `parseMonthNameDate` (`none` models the thrown unknown-month error). -/
def parseMonthNameDate (monthStr : List Char) (day year : Nat) : Option Int :=
  match monthMap (lowerAll monthStr) with
  | none => none
  | some m0 => some (mkDate (normalizeYear year) m0 day)

def grpNat (m : M) (i : Nat) : Option Nat := (m.grp i).map toNatD

/-- The format-specific parser attached to each pattern tag. -/
def runParser (today : Int) (ty : DTy) (m : M) : Option Int :=
  match ty with
  | .usFull => do parseUSDate (← grpNat m 1) (← grpNat m 2) (← grpNat m 3)
  | .euFull => do parseEuropeanDate (← grpNat m 1) (← grpNat m 2) (← grpNat m 3)
  | .iso => do
      isoStrict (← grpNat m 1) (← grpNat m 2) (← grpNat m 3)
  | .shortYear => do
      pure (parseShortYear today (← grpNat m 1) (← grpNat m 2) (← grpNat m 3))
  | .monthNameShort | .monthNameFull => do
      parseMonthNameDate (← m.grp 1) (← grpNat m 2) (← grpNat m 3)
  | .reverseMonthName => do
      parseMonthNameDate (← m.grp 2) (← grpNat m 1) (← grpNat m 3)
  | .compact => do
      isoStrict (← grpNat m 1) (← grpNat m 2) (← grpNat m 3)
  | .withTime | .receiptDate | .transactionDate => do
      pure (parseAmbiguousDate today (← grpNat m 1) (← grpNat m 2) (← grpNat m 3))

/-- The ordered pattern table of `extractDateFromText`. -/
def datePatterns : List (RE × DTy) :=
  [(reNumFull, .usFull), (reNumFull, .euFull), (reIso, .iso),
   (reShortYear, .shortYear), (reMonthNameShort, .monthNameShort),
   (reMonthNameFull, .monthNameFull), (reReverseMonthName, .reverseMonthName),
   (reCompact, .compact), (reWithTime, .withTime), (reReceiptDate, .receiptDate),
   (reTransactionDate, .transactionDate)]

/-- The `/^\d{4}[-\/]\d{2}[-\/]\d{2}$/` bonus test of `calculateDateConfidence`. -/
def isoShape : List Char → Bool
  | [a, b, c, d, s1, e, f, s2, g, h] =>
      jsDigit a && jsDigit b && jsDigit c && jsDigit d &&
      (s1 = '-' || s1 = '/') && jsDigit e && jsDigit f &&
      (s2 = '-' || s2 = '/') && jsDigit g && jsDigit h
  | _ => false

/-- `calculateDateConfidence`. -/
def calculateDateConfidence (dateString : List Char) (ty : DTy) (fullText : List Char) : Int :=
  let base : Int := 50
  let c1 := base +
    (match ty with
     | .iso => 30
     | .monthNameShort | .monthNameFull | .reverseMonthName => 25
     | .receiptDate | .transactionDate => 20
     | .compact => 15
     | .withTime => 10
     | .usFull | .euFull => 5
     | .shortYear => -5)
  let lt := lowerAll fullText
  let c2 := c1 + (if containsSeq "date".data lt then 10 else 0)
  let c3 := c2 + (if containsSeq "transaction".data lt then 8 else 0)
  let c4 := c3 + (if containsSeq "receipt".data lt then 8 else 0)
  let c5 := c4 + (if containsSeq "purchase".data lt then 5 else 0)
  let c6 := c5 + (if 8 ≤ dateString.length then 5 else 0)
  let c7 := c6 + (if isoShape dateString then 10 else 0)
  min 100 (max 0 c7)

/-- A surviving date candidate. -/
structure Cand where
  date : Int
  conf : Int
  original : List Char
deriving DecidableEq

/-- All candidates one pattern contributes, in match order: parser failures
(thrown errors / `NaN`) and candidates rejected by `isValidDate` are dropped. -/
def runPattern (today : Int) (text : List Char) (p : RE × DTy) : List Cand :=
  (execAll p.1 text).filterMap (fun m =>
    match runParser today p.2 m with
    | none => none
    | some d =>
        if isValidDate today (some d) then
          some ⟨d, calculateDateConfidence m.matched p.2 text, m.matched⟩
        else none)

/-- `foundDates`, in push order (patterns in table order). -/
def foundDates (today : Int) (text : List Char) : List Cand :=
  (datePatterns.map (runPattern today text)).flatten

/-- Strict comparison used to model the stable sort of `foundDates`:
`c` precedes `best` when it has higher confidence, or equal confidence and a
date strictly closer to now. -/
def betterCand (today : Int) (c best : Cand) : Bool :=
  if c.conf = best.conf then (today - c.date).natAbs < (today - best.date).natAbs
  else best.conf < c.conf

/-- `foundDates.sort(…)[0]`: the sort is stable and its comparator is induced
by the key (confidence descending, distance to now ascending), so the head of
the sorted array is the earliest candidate that is strictly better than all
earlier ones — computed here by a fold. -/
def selectBest (today : Int) : List Cand → Option Cand
  | [] => none
  | c :: rest => some (rest.foldl (fun b x => if betterCand today x b then x else b) c)

/-- `extractDateFromText` of the date-parser module, with the current time
modelled by the epoch day `today`. -/
def extractDateFromText (today : Int) (text : String) : Option String :=
  if text.data.isEmpty then none
  else
    match selectBest today (foundDates today text.data) with
    | none => none
    | some best => some (isoStringOfDay best.date)

end DP

namespace Ocr

open JsRe JsDate

/-- A parsed line item (see `extractLineItem`). -/
structure LineItem where
  name : String
  price : Int
  quantity : Nat
  unitPrice : Option Int := none
deriving DecidableEq, Repr

/-- The record built by `parseReceiptText`.  Fields that start as `null` or
`undefined` in the source are modelled as `Option`; `needsReview` starts
falsy. -/
structure ParsedReceipt where
  storeName : Option String := none
  storeAddress : Option String := none
  date : Option String := none
  items : List LineItem := []
  total : Option Int := none
  tax : Option Int := none
  subtotal : Option Int := none
  receiptNumber : Option String := none
  rawText : String := ""
  confidence : String := "medium"
  needsReview : Bool := false
  reviewReason : Option String := none
deriving DecidableEq, Repr

/-- `[A-Za-z]`. -/
def alphaCls (c : Char) : Bool := ('a' ≤ c && c ≤ 'z') || ('A' ≤ c && c ≤ 'Z')

/-- `[-\/]`. -/
def dashSlash (c : Char) : Bool := c = '-' || c = '/'

def jsTrim (s : List Char) : List Char :=
  ((s.dropWhile jsSpace).reverse.dropWhile jsSpace).reverse

/-- Maximal run of digits at the front (`\d+`, greedy). -/
def digitRun : List Char → (List Char × List Char)
  | [] => ([], [])
  | c :: rest =>
      if jsDigit c then
        let p := digitRun rest
        (c :: p.1, p.2)
      else ([], c :: rest)

/-- `(\d+\.\d{2})` at the current position (not anchored at the end): the
greedy `\d+` is a maximal munch because a shorter digit run leaves a digit
where the literal dot is required. -/
def amountAt (s : List Char) : Option Int :=
  match digitRun s with
  | ([], _) => none
  | (ip, rest) =>
      match rest with
      | '.' :: d1 :: d2 :: _ => if jsDigit d1 && jsDigit d2 then some (amtVal ip d1 d2) else none
      | _ => none

/-- A keyword matched case-insensitively at the current position; returns the
remainder. -/
def kwAt : List Char → List Char → Option (List Char)
  | [], s => some s
  | _ :: _, [] => none
  | k :: ks, c :: s => if ciEq k c then kwAt ks s else none

/-- `[:\s]*\$?(\d+\.\d{2})` after a keyword.  Both the `[:\s]*` and the `\$?`
are deterministic maximal munches: the separator class contains neither `$`
nor a digit, so backtracking them can never help. -/
def afterKw (s : List Char) : Option Int :=
  let s1 := s.dropWhile (fun c => c = ':' || jsSpace c)
  let s2 := match s1 with
    | '$' :: t => t
    | _ => s1
  amountAt s2

/-- First (leftmost) position where `f` succeeds — JS `String.prototype.match`
scanning for the hand-rolled patterns. -/
def scanFirst {α : Type} (f : List Char → Option α) : List Char → Option α
  | [] => f []
  | c :: rest =>
      match f (c :: rest) with
      | some a => some a
      | none => scanFirst f rest

/-- First match of `/<kw>[:\s]*\$?(\d+\.\d{2})/i`, returning the captured
amount. -/
def scanKwAmount (kw : List Char) : List Char → Option Int :=
  scanFirst (fun t => (kwAt kw t).bind afterKw)

/-- `/grand\s+total[:\s]*\$?(\d+\.\d{2})/i` at the current position (the
`\s+` cannot usefully backtrack because whitespace never matches `t`). -/
def grandAt (s : List Char) : Option Int :=
  match kwAt "grand".data s with
  | none => none
  | some r =>
      match r with
      | c :: r2 =>
          if jsSpace c then
            match kwAt "total".data (r2.dropWhile jsSpace) with
            | some r3 => afterKw r3
            | none => none
          else none
      | [] => none

/-- The loop of `extractTotal`: a pattern whose first match carries an amount
outside `(0, 10000)` does not return — the next pattern is tried. -/
def totalLoop : List (List Char → Option Int) → List Char → Option Int
  | [], _ => none
  | f :: fs, line =>
      match f line with
      | some a => if 0 < a ∧ a < 1000000 then some a else totalLoop fs line
      | none => totalLoop fs line

/-- `extractTotal`. -/
def extractTotal (line : List Char) : Option Int :=
  totalLoop
    [scanKwAmount "total".data, scanKwAmount "amount".data, scanKwAmount "balance".data,
     scanFirst grandAt, scanKwAmount "final".data] line

/-- Case-insensitive substring containment (`/kw/i.test(line)`). -/
def containsCi (kw : List Char) (s : List Char) : Bool :=
  (scanFirst (fun t => kwAt kw t) s).isSome

/-- `isMoreLikelyTotal`. -/
def isMoreLikelyTotal (line : List Char) : Bool :=
  containsCi "total".data line || containsCi "amount".data line ||
  containsCi "balance".data line || containsCi "final".data line

/-- First-match loop without a value condition (`extractTax`,
`extractSubtotal`). -/
def firstSome : List (List Char → Option Int) → List Char → Option Int
  | [], _ => none
  | f :: fs, line =>
      match f line with
      | some a => some a
      | none => firstSome fs line

/-- `extractTax`. -/
def extractTax (line : List Char) : Option Int :=
  firstSome
    [scanKwAmount "tax".data, scanKwAmount "gst".data, scanKwAmount "vat".data,
     scanKwAmount "hst".data] line

/-- `extractSubtotal`. -/
def extractSubtotal (line : List Char) : Option Int :=
  firstSome [scanKwAmount "subtotal".data, scanKwAmount "sub".data] line

/-- Maximal run of word characters (`\w+`, greedy). -/
def wordRun : List Char → (List Char × List Char)
  | [] => ([], [])
  | c :: rest =>
      if jsWord c then
        let p := wordRun rest
        (c :: p.1, p.2)
      else ([], c :: rest)

/-- `/<kw>[#:\s]*(\w+)/i` at the current position. -/
def rnAt (kw : List Char) (s : List Char) : Option (List Char) :=
  match kwAt kw s with
  | none => none
  | some r =>
      match wordRun (r.dropWhile (fun c => c = '#' || c = ':' || jsSpace c)) with
      | ([], _) => none
      | (w, _) => some w

/-- `/#(\w+)/` at the current position. -/
def hashAt (s : List Char) : Option (List Char) :=
  match s with
  | '#' :: r =>
      match wordRun r with
      | ([], _) => none
      | (w, _) => some w
  | _ => none

/-- The loop of `extractReceiptNumber`: a first match whose capture is shorter
than 3 characters falls through to the next pattern. -/
def rnLoop : List (List Char → Option (List Char)) → List Char → Option (List Char)
  | [], _ => none
  | f :: fs, line =>
      match scanFirst f line with
      | some w => if 3 ≤ w.length then some w else rnLoop fs line
      | none => rnLoop fs line

/-- `extractReceiptNumber`. -/
def extractReceiptNumber (line : List Char) : Option (List Char) :=
  rnLoop [rnAt "receipt".data, rnAt "ref".data, rnAt "transaction".data, hashAt] line

/-- `/\d{2,4}[-\/]\d{1,2}[-\/]\d{1,4}/` (the date-like skip pattern). -/
def reDateish : RE :=
  seqs [.rep 2 (some 4) true jsDigit, .cls dashSlash, .rep 1 (some 2) true jsDigit,
    .cls dashSlash, .rep 1 (some 4) true jsDigit]

/-- `/\$\d+\.\d{2}/`. -/
def rePrice : RE :=
  seqs [str "$", .rep 1 none true jsDigit, str ".", .rep 2 (some 2) true jsDigit]

/-- `isStoreName`. -/
def isStoreName (line : List Char) : Bool :=
  if test reDateish line then false
  else if test rePrice line then false
  else if test (alts [strci "total", strci "tax", strci "subtotal", strci "receipt"]) line then false
  else if (matchAtP (seqs [.rep 1 none true jsDigit, .eol]) line).isSome then false
  else if test (alts [strci "phone", strci "tel", strci "address"]) line then false
  else if (matchAtP (seqs [.rep 1 none true (fun c => c = '*' || c = '-' || c = '='), .eol]) line).isSome then false
  else
    test (.rep 2 (some 2) true alphaCls) line && 3 ≤ line.length && line.length ≤ 50

/-- One step of the global `/[*\-=]{2,}/g` removal of `cleanStoreName`: the
first argument is the pending maximal decoration run. -/
def stripDecorGo : List Char → List Char → List Char
  | run, [] => if 2 ≤ run.length then [] else run
  | run, c :: rest =>
      if c = '*' || c = '-' || c = '=' then stripDecorGo (run ++ [c]) rest
      else (if 2 ≤ run.length then [] else run) ++ c :: stripDecorGo [] rest

/-- `/^\W+|\W+$/g` removal. -/
def stripEnds (s : List Char) : List Char :=
  ((s.dropWhile (fun c => !jsWord c)).reverse.dropWhile (fun c => !jsWord c)).reverse

/-- `cleanStoreName`. -/
def cleanStoreName (line : List Char) : List Char :=
  jsTrim (stripEnds (stripDecorGo [] line))

end Ocr

namespace Ocr

open JsRe JsDate

/-- `\d{lo,hi}` (no capture). -/
def dR (lo hi : Nat) : RE := .rep lo (some hi) true jsDigit

/-- `[.\s]`. -/
def dotSp (c : Char) : Bool := c = '.' || jsSpace c

/-- `[,.\s]`. -/
def cdotSp (c : Char) : Bool := c = ',' || c = '.' || jsSpace c

/-- `[:\s]`. -/
def colSp (c : Char) : Bool := c = ':' || jsSpace c

/-- `\d{1,2}[-\/]\d{1,2}[-\/]\d{lo,hi}` (no capture). -/
def numDate (lo hi : Nat) : RE :=
  seqs [dR 1 2, .cls dashSlash, dR 1 2, .cls dashSlash, dR lo hi]

/-- The ordered pattern table of `extractDate` in ocrService.js.  Group 1 is
capture group 1 of each source regex (for the month-name patterns at indices
3 and 5 that group captures only the month name, exactly as in the source). -/
def ocrDatePatterns : List RE :=
  [ .grp 1 (numDate 2 4),
    .grp 1 (numDate 2 4),
    .grp 1 (numDate 2 2),
    seqs [.grp 1 (alts (DP.monthAbbrs.map strci)), .rep 1 none true dotSp, dR 1 2,
      .rep 1 none true cdotSp, dR 2 4],
    .grp 1 (seqs [dR 1 2, .rep 1 none true dotSp, .grp 2 (alts (DP.monthAbbrs.map strci)),
      .rep 1 none true dotSp, dR 2 4]),
    seqs [.grp 1 (alts (DP.monthFulls.map strci)), .rep 1 none true jsSpace, dR 1 2,
      .rep 1 none true cdotSp, dR 2 4],
    .grp 1 (seqs [dR 4 4, .cls dashSlash, dR 1 2, .cls dashSlash, dR 1 2]),
    .grp 1 (dR 8 8),
    .grp 1 (seqs [dR 1 2, str ".", dR 1 2, str ".", dR 2 4]),
    seqs [.grp 1 (numDate 2 4), .rep 1 none true jsSpace, dR 1 2, str ":", dR 2 2],
    seqs [strci "date", .rep 0 none true colSp, .grp 1 (numDate 2 4)],
    seqs [.grp 1 (numDate 2 4), .rep 1 none true jsSpace, dR 1 2, str ":", dR 2 2,
      .rep 0 none true (fun c => c = ':' || jsDigit c), .rep 0 none true jsSpace,
      .alt (.grp 2 (.alt (strci "AM") (strci "PM"))) .eps] ]

/-- The cleaning step of `parseVariousDateFormats`: trim, then globally
delete every character outside the class (word, whitespace, the range from
`/` to `:` — the escaped slash followed by hyphen and colon parses as a
range, which happens to contain the digits — dot, comma).  In particular a
literal hyphen is NOT in the class and is deleted. -/
def cleanDateStr (s : List Char) : List Char :=
  (jsTrim s).filter (fun c => jsWord c || jsSpace c || ('/' ≤ c && c ≤ ':') || c = '.' || c = ',')

/-- The two-digit-year mapping at line 529 of ocrService.js (and line 300 of
tesseractOcrService.js): `year < 50 ? 2000 + year : 1900 + year`. -/
def twoDigitYearMap (year : Nat) : Nat :=
  if year < 50 then 2000 + year else 1900 + year

/-- Modelled subset of the lenient `new Date(string)` parser of the JS
engine: strict ISO `YYYY-MM-DD` strings and `M/D/Y` strings in US
month-first order (1–2 digit month and day, 1–4 digit year, a two-digit year
mapped `0–49 → 2000s`, `50–99 → 1900s` as V8 does), both calendar-validated.
Other string shapes give an invalid date (`none`); no theorem below depends
on an input outside this subset. -/
def jsDateParse (s : List Char) : Option Int :=
  match s.splitOn '-' with
  | [y, m, d] =>
      if y.length = 4 && m.length = 2 && d.length = 2 &&
          (y ++ m ++ d).all jsDigit then
        isoStrict (toNatD y) (toNatD m) (toNatD d)
      else none
  | _ =>
      match s.splitOn '/' with
      | [m, d, y] =>
          if 1 ≤ m.length && m.length ≤ 2 && 1 ≤ d.length && d.length ≤ 2 &&
              1 ≤ y.length && y.length ≤ 4 && (m ++ d ++ y).all jsDigit then
            let yv : Int := if y.length ≤ 2 then twoDigitYearMap (toNatD y) else toNatD y
            let mv : Int := toNatD m
            let dv : Int := toNatD d
            if 1 ≤ mv && mv ≤ 12 && 1 ≤ dv && dv ≤ daysInMonth yv mv then
              some (daysFromCivil yv mv dv)
            else none
          else none
      | _ => none

def natChars (n : Nat) : List Char := (toString n).data

/-- `/(\d{1,2})[-\/](\d{1,2})[-\/](\d{2})$/`. -/
def reTwoDigitYear : RE :=
  seqs [.grp 1 (dR 1 2), .cls dashSlash, .grp 2 (dR 1 2), .cls dashSlash,
    .grp 3 (dR 2 2), .eol]

/-- `/(\d{1,2})\.(\d{1,2})\.(\d{2,4})/`. -/
def reDotDate : RE :=
  seqs [.grp 1 (dR 1 2), str ".", .grp 2 (dR 1 2), str ".", .grp 3 (dR 2 4)]

/-- `/(\d{1,2})[-\/](\d{1,2})[-\/](\d{2,4})/`. -/
def reSlashDate : RE :=
  seqs [.grp 1 (dR 1 2), .cls dashSlash, .grp 2 (dR 1 2), .cls dashSlash, .grp 3 (dR 2 4)]

/-- `parseVariousDateFormats` (shared verbatim by ocrService.js and
tesseractOcrService.js): five parse attempts in order, first valid date
wins. -/
def parseVariousDateFormats (dateStr : List Char) : Option Int :=
  let ds := cleanDateStr dateStr
  match jsDateParse ds with
  | some d => some d
  | none =>
    match (search reTwoDigitYear ds 0).bind (fun m => do
        let p1 ← m.grp 1
        let p2 ← m.grp 2
        let p3 ← m.grp 3
        jsDateParse (p1 ++ '/' :: p2 ++ '/' :: natChars (twoDigitYearMap (toNatD p3)))) with
    | some d => some d
    | none =>
      match (if ds.length = 8 && ds.all jsDigit then
          isoStrict (toNatD (ds.take 4)) (toNatD ((ds.drop 4).take 2)) (toNatD (ds.drop 6))
        else none) with
      | some d => some d
      | none =>
        match (search reDotDate ds 0).bind (fun m => do
            let p1 ← m.grp 1
            let p2 ← m.grp 2
            let p3 ← m.grp 3
            jsDateParse (p2 ++ '/' :: p1 ++ '/' :: p3)) with
        | some d => some d
        | none =>
          (search reSlashDate ds 0).bind (fun m => do
            let p1 ← m.grp 1
            let p2 ← m.grp 2
            let p3 ← m.grp 3
            let n1 := toNatD p1
            let n2 := toNatD p2
            if 12 < n1 then jsDateParse (p2 ++ '/' :: p1 ++ '/' :: p3)
            else if 12 < n2 then jsDateParse (p1 ++ '/' :: p2 ++ '/' :: p3)
            else
              match jsDateParse (p1 ++ '/' :: p2 ++ '/' :: p3) with
              | some d => some d
              | none => jsDateParse (p2 ++ '/' :: p1 ++ '/' :: p3))

/-- The pattern loop of `extractDate` in ocrService.js: for each pattern, its
first match yields `match[1] || match[0]`; a parse failure or an
out-of-range date falls through to the next pattern.  The acceptance window
is `[Jan 1 of (current year − 5), now + 1 day]`. -/
def ocrDateLoop (today : Int) (line : List Char) : List RE → Option String
  | [] => none
  | re :: rest =>
      match search re line 0 with
      | none => ocrDateLoop today line rest
      | some m =>
          let dateStr := match m.grp 1 with
            | some g => if g.isEmpty then m.matched else g
            | none => m.matched
          match parseVariousDateFormats dateStr with
          | some d =>
              if daysFromCivil (yearOf today - 5) 1 1 ≤ d && d ≤ today + 1 then
                some (isoStringOfDay d)
              else ocrDateLoop today line rest
          | none => ocrDateLoop today line rest

/-- `extractDate` of ocrService.js. -/
def extractDate (today : Int) (line : List Char) : Option String :=
  ocrDateLoop today line ocrDatePatterns

end Ocr

namespace Ocr

open JsRe JsDate

/-- `(\d+\.\d{2})$`: amount anchored at the end of the input. -/
def amountEnd (s : List Char) : Option Int :=
  match digitRun s with
  | ([], _) => none
  | (ip, rest) =>
      match rest with
      | ['.', d1, d2] => if jsDigit d1 && jsDigit d2 then some (amtVal ip d1 d2) else none
      | _ => none

/-- `\s+\$?(\d+\.\d{2})$`: deterministic (each munch is forced by the
disjointness of the adjacent classes and the end anchor). -/
def tailAmount (s : List Char) : Option Int :=
  match s with
  | [] => none
  | c :: rest =>
      if jsSpace c then
        let r := rest.dropWhile jsSpace
        match r with
        | '$' :: t => amountEnd t
        | _ => amountEnd r
      else none

/-- `/^(.+?)\s+\$?(\d+\.\d{2})$/`: the lazy `(.+?)` takes the shortest
non-empty prefix of dot-class characters whose remainder matches
`tailAmount`; `acc` is the prefix collected so far. -/
def itemPat0Go (acc : List Char) : List Char → Option (List Char × Int)
  | [] => none
  | c :: rest =>
      if jsDot c then
        match tailAmount rest with
        | some a => some (acc ++ [c], a)
        | none => itemPat0Go (acc ++ [c]) rest
      else none

def itemPat0 (line : List Char) : Option (List Char × Int) :=
  itemPat0Go [] line

/-- Backtracking of the `\s+` in `/^(\d+)\s+(.+?)\s+\$?(\d+\.\d{2})$/`: the
greedy run is tried longest first; `i` whitespace characters are consumed and
the rest (including the unconsumed tail of the run) is handed to the lazy
part. -/
def pat1Ws (q wsRun tail : List Char) : Nat → Option (List Char × List Char × Int)
  | 0 => none
  | i + 1 =>
      match itemPat0Go [] (wsRun.drop (i + 1) ++ tail) with
      | some (a, amt) => some (q, a, amt)
      | none => pat1Ws q wsRun tail i

/-- `/^(\d+)\s+(.+?)\s+\$?(\d+\.\d{2})$/`. -/
def itemPat1 (line : List Char) : Option (List Char × List Char × Int) :=
  match digitRun line with
  | ([], _) => none
  | (q, rest) =>
      let wsRun := rest.takeWhile jsSpace
      let tail := rest.dropWhile jsSpace
      if wsRun.isEmpty then none else pat1Ws q wsRun tail wsRun.length

/-- `\$?` as an expression. -/
def dollarOpt : RE := .alt (str "$") .eps

/-- `(\d+\.\d{2})` as a captured expression. -/
def amountG (g : Nat) : RE :=
  .grp g (seqs [.rep 1 none true jsDigit, str ".", .rep 2 (some 2) true jsDigit])

/-- `/^(.+?)\s+@\s+\$?(\d+\.\d{2})\s*=?\s*\$?(\d+\.\d{2})$/`. -/
def reItemAt : RE :=
  seqs [.grp 1 (.rep 1 none false jsDot), .rep 1 none true jsSpace, str "@",
    .rep 1 none true jsSpace, dollarOpt, amountG 2, .rep 0 none true jsSpace,
    .alt (str "=") .eps, .rep 0 none true jsSpace, dollarOpt, amountG 3, .eol]

/-- `Math.round(price / unit)` on cent values: the rounding of a
non-negative quotient is the floor of `p/u + 1/2`, computed exactly on
integers; a zero unit price — JS `Infinity` — is abstracted to 0, a case no
theorem below exercises. -/
def jsRound (p u : Int) : Int := (2 * p + u).fdiv (2 * u)

/-- Amount value of a captured `\d+\.\d{2}` text. -/
def capAmt (cs : List Char) : Int :=
  match amountAt cs with
  | some a => a
  | none => 0

/-- `/^([A-Za-z].{2,30})$/`. -/
def itemPat3 (line : List Char) : Bool :=
  match line with
  | [] => false
  | c :: rest => alphaCls c && 2 ≤ rest.length && rest.length ≤ 30 && rest.all jsDot

/-- `/^\$?(\d+\.\d{2})$/` (the price-on-next-line test). -/
def priceOnly (s : List Char) : Option Int :=
  match s with
  | '$' :: t => amountEnd t
  | _ => amountEnd s

/-- `isNonItemLine` (shared by ocrService.js and tesseractOcrService.js).
In the last source pattern the `^` anchor binds only to the first
alternative, so `server` and `store` are matched anywhere in the line. -/
def isNonItemLine (line : List Char) : Bool :=
  test (alts [strci "total", strci "subtotal", strci "tax", strci "discount",
    strci "change"]) line ||
  test (alts [seqs [strci "thank", .rep 1 none true jsSpace, strci "you"],
    strci "welcome", strci "visit"]) line ||
  (matchAtP reDateish line).isSome ||
  test (alts [strci "phone", strci "address", strci "receipt"]) line ||
  (matchAtP (seqs [.rep 1 none true (fun c => c = '*' || c = '-' || c = '=' || jsSpace c), .eol]) line).isSome ||
  test (alts [strci "cash", strci "credit", strci "debit", strci "card"]) line ||
  ((matchAtP (strci "cashier") line).isSome || test (strci "server") line ||
    test (strci "store") line)

/-- `extractLineItem` (the four item shapes, tried in order; on shape 4 a
missing next-line price exits the pattern loop). -/
def extractLineItem (line nextLine : List Char) : Option LineItem :=
  if isNonItemLine line then none
  else
    match itemPat0 line with
    | some (a, amt) => some { name := String.mk (jsTrim a), price := amt, quantity := 1 }
    | none =>
      match itemPat1 line with
      | some (q, a, amt) =>
          some { name := String.mk (jsTrim a), price := amt, quantity := toNatD q }
      | none =>
        match matchAtP reItemAt line with
        | some (_, g) =>
            match List.get? g 1, List.get? g 2, List.get? g 3 with
            | some (some nm), some (some u), some (some p) =>
                let unit := capAmt u
                let price := capAmt p
                some { name := String.mk (jsTrim nm)
                       price := price
                       quantity := (if unit = 0 then 0 else jsRound price unit).toNat
                       unitPrice := some unit }
            | _, _, _ => none
        | none =>
            if itemPat3 line then
              match priceOnly nextLine with
              | some p => some { name := String.mk (jsTrim line), price := p, quantity := 1 }
              | none => none
            else none

end Ocr

namespace Ocr

open JsRe JsDate

/-- `text.split('\n').map(trim).filter(nonempty)`. -/
def splitLines (text : String) : List (List Char) :=
  ((text.data.splitOn '\n').map jsTrim).filter (fun l => !l.isEmpty)

/-- One iteration of the per-line loop of `parseReceiptText`, in source
order: store name (first five lines, first hit), date (first hit), receipt
number (first hit), total (override allowed when the line carries a strong
total indicator), tax and subtotal (last write wins), line items (append). -/
def processLine (today : Int) (r : ParsedReceipt) (i : Nat) (line nextLine : List Char) :
    ParsedReceipt :=
  let r := if r.storeName = none && i < 5 && isStoreName line then
      { r with storeName := some (String.mk (cleanStoreName line)) } else r
  let r := match extractDate today line with
    | some d => if r.date = none then { r with date := some d } else r
    | none => r
  let r := match extractReceiptNumber line with
    | some n => if r.receiptNumber = none then { r with receiptNumber := some (String.mk n) } else r
    | none => r
  let r := match extractTotal line with
    | some t => if r.total = none || isMoreLikelyTotal line then { r with total := some t } else r
    | none => r
  let r := match extractTax line with
    | some t => { r with tax := some t }
    | none => r
  let r := match extractSubtotal line with
    | some t => { r with subtotal := some t }
    | none => r
  match extractLineItem line nextLine with
  | some it => { r with items := r.items ++ [it] }
  | none => r

def processLines (today : Int) : ParsedReceipt → Nat → List (List Char) → ParsedReceipt
  | r, _, [] => r
  | r, i, line :: rest =>
      let nextLine := match rest with
        | [] => []
        | n :: _ => n
      processLines today (processLine today r i line nextLine) (i + 1) rest

/-- `result.reviewReason ? result.reviewReason + '; ' + reason : reason`. -/
def appendReason (old : Option String) (r : String) : String :=
  match old with
  | some o => o ++ "; " ++ r
  | none => r

/-- `items.reduce((sum, item) => sum + (item.price || 0), 0)`. -/
def itemsPriceSum (items : List LineItem) : Int :=
  items.foldl (fun s it => s + it.price) 0

/-- Validation rule 1: missing date defaults to today and is flagged. -/
def rule1 (today : Int) (r : ParsedReceipt) : ParsedReceipt :=
  if r.date = none then
    { r with date := some (isoStringOfDay today)
             needsReview := true
             reviewReason := some (appendReason r.reviewReason "No date found in receipt") }
  else r

/-- Validation rule 2: missing store name defaults to "Unknown Store" and is
flagged. -/
def rule2 (r : ParsedReceipt) : ParsedReceipt :=
  if r.storeName = none then
    { r with storeName := some "Unknown Store"
             needsReview := true
             reviewReason := some (appendReason r.reviewReason "Store name not detected") }
  else r

/-- The trigger of validation rule 3: a stated positive total, a positive
item-price sum, and a deviation of more than 30 percent of the total
(`|sum - t| > t * 0.3` is stated exactly as `10 * |sum - t| > 3 * t`). -/
def mismatch (r : ParsedReceipt) : Bool :=
  match r.total with
  | some t => 0 < t && 0 < itemsPriceSum r.items && 3 * t < 10 * |itemsPriceSum r.items - t|
  | none => false

/-- Validation rule 3 of ocrService.js: note that `reviewReason` is
ASSIGNED, not appended — any earlier reasons are discarded. -/
def rule3 (r : ParsedReceipt) : ParsedReceipt :=
  if mismatch r then
    { r with needsReview := true
             reviewReason := some "Items total does not match receipt total" }
  else r

def sameKey (a b : LineItem) : Bool := a.name = b.name && a.price = b.price

/-- `item.quantity || 1` for the quantity added by a dropped duplicate. -/
def qtyOr1 (q : Nat) : Nat := if q = 0 then 1 else q

/-- `removeDuplicateItems`, rendered purely: the source filters the list
through a `Map` keyed by `name_price` and adds each dropped duplicate
quantity to the first (kept) occurrence it aliases, so a kept item ends with
its own quantity plus the `quantity || 1` of every later item with the same
key; the key is injective in (name, price) because the stringified price
contains no underscore. -/
def dedupGo : List (String × Int) → List LineItem → List LineItem
  | _, [] => []
  | seen, it :: rest =>
      if (it.name, it.price) ∈ seen then dedupGo seen rest
      else
        { it with quantity :=
            it.quantity + ((rest.filter (fun b => sameKey it b)).map (fun b => qtyOr1 b.quantity)).sum } ::
          dedupGo ((it.name, it.price) :: seen) rest

def removeDuplicateItems (items : List LineItem) : List LineItem :=
  dedupGo [] items

/-- `validateParsedData` of ocrService.js: the three rules in source order,
then deduplication of the items. -/
def validateParsedData (today : Int) (r : ParsedReceipt) : ParsedReceipt :=
  { rule3 (rule2 (rule1 today r)) with
    items := removeDuplicateItems (rule3 (rule2 (rule1 today r))).items }

/-- `parseReceiptText` of ocrService.js: the empty/whitespace-only check is
the single `throw` of the parsing pipeline (modelled by `Except.error`);
everything else degrades to absent fields. -/
def parseReceiptText (today : Int) (text : String) : Except String ParsedReceipt :=
  if (jsTrim text.data).isEmpty then .error "No text extracted from receipt"
  else
    .ok (validateParsedData today
      (processLines today { rawText := text } 0 (splitLines text)))

end Ocr

namespace Tess

open JsRe JsDate

/-- Validation rule 3 of tesseractOcrService.js: unlike ocrService.js, the
reason IS appended to any earlier reasons. -/
def rule3 (r : Ocr.ParsedReceipt) : Ocr.ParsedReceipt :=
  if Ocr.mismatch r then
    { r with needsReview := true
             reviewReason := some (Ocr.appendReason r.reviewReason
               "Items total does not match receipt total") }
  else r

/-- `validateParsedData` of tesseractOcrService.js (rules 1, 2 and the
deduplication are verbatim copies of the ocrService.js ones). -/
def validateParsedData (today : Int) (r : Ocr.ParsedReceipt) : Ocr.ParsedReceipt :=
  { rule3 (Ocr.rule2 (Ocr.rule1 today r)) with
    items := Ocr.removeDuplicateItems (rule3 (Ocr.rule2 (Ocr.rule1 today r))).items }

end Tess

deriving instance DecidableEq for Except

/-- The current date used by the concrete evaluations: 2026-10-11 (the
epoch-day model of `new Date()` at the time of this verification). -/
def today0 : Int := JsDate.daysFromCivil 2026 10 11

/-- The lower bound of the plausibility window as the SPEC words it: the
same civil day ten years before today (the code instead uses January 1 of
the year ten years before). -/
def specWindowLow (today : Int) : Int :=
  JsDate.daysFromCivil (JsDate.yearOf today - 10) (JsDate.civilFromDays today).2.1
    (JsDate.civilFromDays today).2.2

/-- Deduplication as the spec words it: the first occurrence of each
(name, price) key is kept in place with its other fields, its quantity
becomes the sum of the quantities of its whole group, and the later
duplicates disappear. -/
def dedupSpecSum : List Ocr.LineItem → List Ocr.LineItem
  | [] => []
  | it :: rest =>
      { it with quantity :=
          it.quantity + ((rest.filter (fun b => Ocr.sameKey it b)).map
            (fun b => b.quantity)).sum } ::
        dedupSpecSum (rest.filter (fun b => !Ocr.sameKey it b))
termination_by l => l.length
decreasing_by
  simp only [List.length_cons]
  exact Nat.lt_succ_of_le (List.length_filter_le _ _)

/-- The Milk line item of the dedup law. -/
def milkItem : Ocr.LineItem := { name := "Milk", price := 350, quantity := 1 }

/-- An 8.00 item against a stated 20.00 total (mismatch scenario). -/
def widgetItem : Ocr.LineItem := { name := "Widget", price := 800, quantity := 1 }

/-- A draft with no date, no store name, and a 30-percent total mismatch:
all three validation rules trigger on it. -/
def draftC3 : Ocr.ParsedReceipt := { total := some 2000, items := [widgetItem] }

/-- A draft whose duplicate Milk items sum exactly to the stated total:
validation does not flag it, but deduplication halves the item-price sum. -/
def draftC4 : Ocr.ParsedReceipt :=
  { storeName := some "S", date := some "2024-01-15", total := some 700,
    items := [milkItem, milkItem] }

/-- The record the pipeline actually produces for "RANDOM NOISE 123" at
`today0`. -/
def c2expected : Ocr.ParsedReceipt :=
  { storeName := some "RANDOM NOISE 123", date := some "2026-10-11",
    rawText := "RANDOM NOISE 123", needsReview := true,
    reviewReason := some "No date found in receipt" }

/-! ### General helper lemmas -/

theorem digit_not_space {c : Char} (h : JsRe.jsDigit c = true) : JsRe.jsSpace c = false := by
  unfold JsRe.jsDigit at h
  unfold JsRe.jsSpace
  simp only [Bool.and_eq_true, decide_eq_true_eq] at h
  simp only [Bool.or_eq_false_iff, decide_eq_false_iff_not]
  refine ⟨⟨⟨⟨⟨?_, ?_⟩, ?_⟩, ?_⟩, ?_⟩, ?_⟩ <;> rintro rfl <;> revert h <;> decide

theorem digit_dot {c : Char} (h : JsRe.jsDigit c = true) : JsRe.jsDot c = true := by
  unfold JsRe.jsDigit at h
  unfold JsRe.jsDot
  simp only [Bool.and_eq_true, decide_eq_true_eq] at h
  simp only [Bool.not_eq_true', Bool.or_eq_false_iff, decide_eq_false_iff_not]
  constructor <;> rintro rfl <;> revert h <;> decide

theorem digit_not_dollar {c : Char} (h : JsRe.jsDigit c = true) : c ≠ '$' := by
  rintro rfl
  revert h
  decide

theorem jsTrim_eq_nil_iff (s : List Char) :
    Ocr.jsTrim s = [] ↔ s.all JsRe.jsSpace = true := by
  unfold Ocr.jsTrim
  constructor
  · intro h
    rw [List.reverse_eq_nil_iff, List.dropWhile_eq_nil_iff] at h
    have h2 : ∀ x ∈ s.dropWhile JsRe.jsSpace, JsRe.jsSpace x = true := by
      intro x hx
      exact h x (List.mem_reverse.mpr hx)
    rw [List.all_eq_true]
    intro x hx
    rcases List.mem_append.mp
        ((List.takeWhile_append_dropWhile (p := JsRe.jsSpace) (l := s)) ▸ hx) with h3 | h3
    · exact List.mem_takeWhile_imp h3
    · exact h2 x h3
  · intro h
    have h1 : s.dropWhile JsRe.jsSpace = [] := by
      rw [List.dropWhile_eq_nil_iff]
      intro x hx
      exact List.all_eq_true.mp h x hx
    rw [h1]
    rfl

theorem scanFirst_some_drop {α : Type} (f : List Char → Option α) (s : List Char) (a : α)
    (h : Ocr.scanFirst f s = some a) : ∃ n, f (s.drop n) = some a := by
  induction s with
  | nil => exact ⟨0, h⟩
  | cons c rest ih =>
      unfold Ocr.scanFirst at h
      rcases hf : f (c :: rest) with _ | b
      · rw [hf] at h
        obtain ⟨n, hn⟩ := ih h
        exact ⟨n + 1, hn⟩
      · rw [hf] at h
        exact ⟨0, hf.trans h⟩

theorem scanFirst_isSome_of {α : Type} (f : List Char → Option α) (s : List Char) (n : Nat)
    (a : α) (h : f (s.drop n) = some a) : (Ocr.scanFirst f s).isSome = true := by
  induction s generalizing n with
  | nil =>
      rw [List.drop_nil] at h
      unfold Ocr.scanFirst
      rw [h]
      rfl
  | cons c rest ih =>
      unfold Ocr.scanFirst
      rcases hf : f (c :: rest) with _ | b
      · rcases n with _ | m
        · rw [List.drop_zero] at h
          rw [hf] at h
          cases h
        · exact ih m h
      · rfl

theorem kwAt_append (k1 k2 s r : List Char)
    (h : Ocr.kwAt (k1 ++ k2) s = some r) :
    ∃ s2, Ocr.kwAt k1 s = some s2 ∧ Ocr.kwAt k2 s2 = some r := by
  induction k1 generalizing s with
  | nil => exact ⟨s, rfl, h⟩
  | cons k ks ih =>
      rcases s with _ | ⟨c, t⟩
      · simp [Ocr.kwAt] at h
      · simp only [List.cons_append, Ocr.kwAt] at h ⊢
        rcases hc : JsRe.ciEq k c with _ | _
        · simp only [hc, Bool.false_eq_true, if_false] at h
          cases h
        · simp only [hc, if_true] at h ⊢
          exact ih t h

theorem kwAt_drop (k s r : List Char) (h : Ocr.kwAt k s = some r) :
    r = s.drop k.length := by
  induction k generalizing s with
  | nil =>
      simp only [Ocr.kwAt, Option.some.injEq] at h
      simp [← h]
  | cons c ks ih =>
      rcases s with _ | ⟨d, t⟩
      · simp [Ocr.kwAt] at h
      · simp only [Ocr.kwAt] at h
        rcases hc : JsRe.ciEq c d with _ | _
        · simp only [hc, Bool.false_eq_true, if_false] at h
          cases h
        · simp only [hc, if_true] at h
          simpa using ih t h

theorem sameKey_iff (a b : Ocr.LineItem) :
    Ocr.sameKey a b = true ↔ (b.name, b.price) = (a.name, a.price) := by
  simp only [Ocr.sameKey, Bool.and_eq_true, decide_eq_true_eq, Prod.mk.injEq]
  constructor
  · rintro ⟨h1, h2⟩
    exact ⟨h1.symm, h2.symm⟩
  · rintro ⟨h1, h2⟩
    exact ⟨h1.symm, h2.symm⟩

theorem dedupGo_key_not_seen (l : List Ocr.LineItem) :
    ∀ seen it2, it2 ∈ Ocr.dedupGo seen l → (it2.name, it2.price) ∉ seen := by
  induction l with
  | nil =>
      intro seen it2 h
      simp [Ocr.dedupGo] at h
  | cons it rest ih =>
      intro seen it2 h
      simp only [Ocr.dedupGo] at h
      by_cases hmem : (it.name, it.price) ∈ seen
      · rw [if_pos hmem] at h
        exact ih seen it2 h
      · rw [if_neg hmem] at h
        rcases List.mem_cons.mp h with h1 | h1
        · subst h1
          simpa using hmem
        · have h2 := ih ((it.name, it.price) :: seen) it2 h1
          intro hc
          exact h2 (List.mem_cons_of_mem _ hc)

theorem dedupGo_pairwise (l : List Ocr.LineItem) :
    ∀ seen, List.Pairwise (fun a b => Ocr.sameKey a b = false) (Ocr.dedupGo seen l) := by
  induction l with
  | nil =>
      intro seen
      simp [Ocr.dedupGo]
  | cons it rest ih =>
      intro seen
      simp only [Ocr.dedupGo]
      by_cases hmem : (it.name, it.price) ∈ seen
      · rw [if_pos hmem]
        exact ih seen
      · rw [if_neg hmem]
        refine List.Pairwise.cons ?_ (ih _)
        intro b hb
        have hnot := dedupGo_key_not_seen rest _ b hb
        rw [Bool.eq_false_iff]
        intro htrue
        have hkey := (sameKey_iff _ b).mp htrue
        exact hnot (by simp only [hkey]; exact List.mem_cons_self _ _)

theorem dedupGo_id (l : List Ocr.LineItem) :
    ∀ seen, List.Pairwise (fun a b => Ocr.sameKey a b = false) l →
    (∀ it ∈ l, (it.name, it.price) ∉ seen) → Ocr.dedupGo seen l = l := by
  induction l with
  | nil =>
      intro seen _ _
      rfl
  | cons it rest ih =>
      intro seen hp hs
      rcases List.pairwise_cons.mp hp with ⟨hhead, htail⟩
      simp only [Ocr.dedupGo]
      rw [if_neg (hs it (List.mem_cons_self _ _))]
      have hfilter : rest.filter (fun b => Ocr.sameKey it b) = [] := by
        rw [List.filter_eq_nil_iff]
        intro b hb
        simp [hhead b hb]
      rw [hfilter]
      simp only [List.map_nil, List.sum_nil, Nat.add_zero]
      congr 1
      exact ih _ htail (fun b hb hc => by
        rcases List.mem_cons.mp hc with h1 | h1
        · have := (sameKey_iff it b).mpr h1
          rw [hhead b hb] at this
          cases this
        · exact hs b (List.mem_cons_of_mem _ hb) h1)

theorem dedupGo_spec (l : List Ocr.LineItem) :
    ∀ seen : List (String × Int), (∀ it ∈ l, 1 ≤ it.quantity) →
    Ocr.dedupGo seen l =
      dedupSpecSum (l.filter (fun it => !decide ((it.name, it.price) ∈ seen))) := by
  induction l with
  | nil =>
      intro seen _
      simp [Ocr.dedupGo, dedupSpecSum]
  | cons it rest ih =>
      intro seen h
      by_cases hmem : (it.name, it.price) ∈ seen
      · simp only [Ocr.dedupGo]
        rw [if_pos hmem, List.filter_cons]
        simp only [decide_eq_true hmem, Bool.not_true, Bool.false_eq_true, if_false]
        exact ih seen (fun b hb => h b (List.mem_cons_of_mem _ hb))
      · simp only [Ocr.dedupGo]
        rw [if_neg hmem, List.filter_cons]
        simp only [decide_eq_false hmem, Bool.not_false, if_true]
        rw [dedupSpecSum]
        have hqty : ((rest.filter (fun b => !decide ((b.name, b.price) ∈ seen))).filter
            (fun b => Ocr.sameKey it b)).map (fun b => b.quantity) =
            (rest.filter (fun b => Ocr.sameKey it b)).map (fun b => Ocr.qtyOr1 b.quantity) := by
          rw [List.filter_filter]
          have hf : rest.filter (fun b => Ocr.sameKey it b && !decide ((b.name, b.price) ∈ seen)) =
              rest.filter (fun b => Ocr.sameKey it b) := by
            apply List.filter_congr
            intro b _
            rcases hsk : Ocr.sameKey it b with _ | _
            · rfl
            · have hkey := (sameKey_iff it b).mp hsk
              simp [hkey, hmem]
          rw [hf]
          apply List.map_congr_left
          intro b hb
          have hb2 := List.mem_of_mem_filter hb
          have hge := h b (List.mem_cons_of_mem _ hb2)
          unfold Ocr.qtyOr1
          rw [if_neg (by omega)]
        rw [hqty]
        have htail : rest.filter
            (fun b => !decide ((b.name, b.price) ∈ (it.name, it.price) :: seen)) =
            (rest.filter (fun b => !decide ((b.name, b.price) ∈ seen))).filter
              (fun b => !Ocr.sameKey it b) := by
          rw [List.filter_filter]
          apply List.filter_congr
          intro b _
          rcases hsk : Ocr.sameKey it b with _ | _
          · have hkey : (b.name, b.price) ≠ (it.name, it.price) := by
              intro hc
              rw [(sameKey_iff it b).mpr hc] at hsk
              cases hsk
            simp [List.mem_cons, hkey]
          · have hkey := (sameKey_iff it b).mp hsk
            simp [List.mem_cons, hkey]
        rw [← htail]
        congr 1
        exact ih _ (fun b hb => h b (List.mem_cons_of_mem _ hb))

theorem foldl_better_mem (today : Int) (c : DP.Cand) (l : List DP.Cand) :
    l.foldl (fun b x => if DP.betterCand today x b then x else b) c ∈ c :: l := by
  induction l generalizing c with
  | nil => simp
  | cons d t ih =>
      simp only [List.foldl_cons]
      rcases hb : DP.betterCand today d c with _ | _
      · simp only [hb, Bool.false_eq_true, if_false]
        rcases List.mem_cons.mp (ih c) with h | h
        · rw [h]
          exact List.mem_cons_self _ _
        · exact List.mem_cons_of_mem _ (List.mem_cons_of_mem _ h)
      · simp only [hb, if_true]
        rcases List.mem_cons.mp (ih d) with h | h
        · rw [h]
          exact List.mem_cons_of_mem _ (List.mem_cons_self _ _)
        · exact List.mem_cons_of_mem _ (List.mem_cons_of_mem _ h)

theorem selectBest_mem (today : Int) (l : List DP.Cand) (c : DP.Cand)
    (h : DP.selectBest today l = some c) : c ∈ l := by
  rcases l with _ | ⟨d, t⟩
  · cases h
  · simp only [DP.selectBest, Option.some.injEq] at h
    exact h ▸ foldl_better_mem today d t

theorem foundDates_valid (today : Int) (text : List Char) (c : DP.Cand)
    (h : c ∈ DP.foundDates today text) : DP.isValidDate today (some c.date) = true := by
  unfold DP.foundDates at h
  rw [List.mem_flatten] at h
  obtain ⟨l, hl, hc⟩ := h
  rw [List.mem_map] at hl
  obtain ⟨p, _, rfl⟩ := hl
  unfold DP.runPattern at hc
  rw [List.mem_filterMap] at hc
  obtain ⟨m, _, hm⟩ := hc
  split at hm
  · cases hm
  · split at hm
    · rename_i hv
      cases hm
      exact hv
    · cases hm

theorem isValidDate_bounds (today d : Int)
    (h : DP.isValidDate today (some d) = true) :
    JsDate.daysFromCivil (JsDate.yearOf today - 10) 1 1 ≤ d ∧ d ≤ today + 7 := by
  unfold DP.isValidDate at h
  simpa using h

/-! ### Preservation lemmas for the validator -/

theorem rule1_fields (today : Int) (r : Ocr.ParsedReceipt) :
    (Ocr.rule1 today r).items = r.items ∧ (Ocr.rule1 today r).total = r.total ∧
    (Ocr.rule1 today r).storeName = r.storeName := by
  unfold Ocr.rule1
  split <;> simp

theorem rule1_date_some (today : Int) (r : Ocr.ParsedReceipt) :
    (Ocr.rule1 today r).date ≠ none := by
  unfold Ocr.rule1
  split
  · simp
  · simpa using by assumption

theorem rule2_fields (r : Ocr.ParsedReceipt) :
    (Ocr.rule2 r).items = r.items ∧ (Ocr.rule2 r).total = r.total ∧
    (Ocr.rule2 r).date = r.date := by
  unfold Ocr.rule2
  split <;> simp

theorem rule2_store_some (r : Ocr.ParsedReceipt) : (Ocr.rule2 r).storeName ≠ none := by
  unfold Ocr.rule2
  split
  · simp
  · simpa using by assumption

theorem rule3_fields (r : Ocr.ParsedReceipt) :
    (Ocr.rule3 r).items = r.items ∧ (Ocr.rule3 r).total = r.total ∧
    (Ocr.rule3 r).date = r.date ∧ (Ocr.rule3 r).storeName = r.storeName := by
  unfold Ocr.rule3
  split <;> simp

theorem rule1_id (today : Int) (r : Ocr.ParsedReceipt) (h : r.date ≠ none) :
    Ocr.rule1 today r = r := by
  unfold Ocr.rule1
  rw [if_neg h]

theorem rule2_id (r : Ocr.ParsedReceipt) (h : r.storeName ≠ none) :
    Ocr.rule2 r = r := by
  unfold Ocr.rule2
  rw [if_neg h]

theorem mismatch_congr (a b : Ocr.ParsedReceipt) (ht : a.total = b.total)
    (hi : a.items = b.items) : Ocr.mismatch a = Ocr.mismatch b := by
  unfold Ocr.mismatch
  rw [ht, hi]

/-! ### Lemmas about the hand-rolled line-item matchers -/

theorem digitRun_eq (s : List Char) :
    Ocr.digitRun s = (s.takeWhile JsRe.jsDigit, s.dropWhile JsRe.jsDigit) := by
  induction s with
  | nil => rfl
  | cons c rest ih =>
      simp only [Ocr.digitRun, List.takeWhile, List.dropWhile]
      rcases hc : JsRe.jsDigit c with _ | _
      · simp [hc]
      · simp [hc, ih]

theorem digitRun_append (ip t : List Char) (h1 : ip.all JsRe.jsDigit = true)
    (c : Char) (h2 : JsRe.jsDigit c = false) :
    Ocr.digitRun (ip ++ c :: t) = (ip, c :: t) := by
  induction ip with
  | nil =>
      simp only [List.nil_append, Ocr.digitRun]
      rw [h2]
      simp
  | cons d rest ih =>
      simp only [List.all_cons, Bool.and_eq_true] at h1
      simp only [List.cons_append, Ocr.digitRun, List.append_eq, h1.1, if_true, ih h1.2]

theorem amountEnd_sound (r : List Char) (amt : Int) (h : Ocr.amountEnd r = some amt) :
    ∃ dg x y, r = dg ++ ['.', x, y] ∧ dg ≠ [] ∧ dg.all JsRe.jsDigit = true ∧
      JsRe.jsDigit x = true ∧ JsRe.jsDigit y = true ∧ amt = amtVal dg x y := by
  unfold Ocr.amountEnd at h
  split at h
  · cases h
  · rename_i ip rest heq
    split at h
    · rename_i x y
      split at h
      · rename_i hxy
        simp only [Option.some.injEq] at h
        rw [digitRun_eq] at heq
        simp only [Prod.mk.injEq] at heq
        obtain ⟨h1, h2⟩ := heq
        subst h1
        simp only [Bool.and_eq_true] at hxy
        refine ⟨List.takeWhile JsRe.jsDigit r, x, y, ?_, fun hnil => rest hnil, ?_,
          hxy.1, hxy.2, h.symm⟩
        · rw [← h2]
          exact (List.takeWhile_append_dropWhile _ _).symm
        · rw [List.all_eq_true]
          intro c hc
          exact List.mem_takeWhile_imp hc
      · cases h
    · cases h

theorem amountEnd_complete (ip : List Char) (d1 d2 : Char) (h0 : ip ≠ [])
    (h1 : ip.all JsRe.jsDigit = true) (h2 : JsRe.jsDigit d1 = true)
    (h3 : JsRe.jsDigit d2 = true) :
    Ocr.amountEnd (ip ++ ['.', d1, d2]) = some (amtVal ip d1 d2) := by
  rcases ip with _ | ⟨i0, ipt⟩
  · cases h0 rfl
  · unfold Ocr.amountEnd
    rw [digitRun_append (i0 :: ipt) [d1, d2] h1 '.' (by decide)]
    simp [h2, h3]

theorem dropWhile_append_all (p : Char → Bool) (xs ys : List Char) (h : xs.all p = true) :
    (xs ++ ys).dropWhile p = ys.dropWhile p := by
  induction xs with
  | nil => rfl
  | cons c t ih =>
      simp only [List.all_cons, Bool.and_eq_true] at h
      simp only [List.cons_append, List.dropWhile_cons, h.1, if_true]
      exact ih h.2

theorem tailAmount_sound (s : List Char) (amt : Int) (h : Ocr.tailAmount s = some amt) :
    ∃ sp dollar r, s = sp ++ dollar ++ r ∧ sp ≠ [] ∧ sp.all JsRe.jsSpace = true ∧
      (dollar = [] ∨ dollar = ['$']) ∧ Ocr.amountEnd r = some amt := by
  rcases s with _ | ⟨c, rest⟩
  · cases h
  · unfold Ocr.tailAmount at h
    rcases hc : JsRe.jsSpace c with _ | _
    · simp only [hc, Bool.false_eq_true, if_false] at h
      cases h
    · simp only [hc, if_true] at h
      have hsplit : rest = rest.takeWhile JsRe.jsSpace ++ rest.dropWhile JsRe.jsSpace :=
        (List.takeWhile_append_dropWhile _ _).symm
      have hallsp : (c :: rest.takeWhile JsRe.jsSpace).all JsRe.jsSpace = true := by
        simp only [List.all_cons, hc, Bool.true_and, List.all_eq_true]
        intro x hx
        exact List.mem_takeWhile_imp hx
      split at h
      · rename_i t heq
        rw [heq] at hsplit
        refine ⟨c :: rest.takeWhile JsRe.jsSpace, ['$'], t, ?_, by simp, hallsp,
          Or.inr rfl, h⟩
        rw [List.cons_append, List.cons_append]
        rw [List.cons.injEq]
        exact ⟨rfl, by simpa using hsplit⟩
      · refine ⟨c :: rest.takeWhile JsRe.jsSpace, [], rest.dropWhile JsRe.jsSpace, ?_,
          by simp, hallsp, Or.inl rfl, h⟩
        rw [List.append_nil, List.cons_append, List.cons.injEq]
        exact ⟨rfl, hsplit⟩

theorem tailAmount_complete (w2 dp ip : List Char) (d1 d2 : Char)
    (hw2 : w2 ≠ []) (hw2s : w2.all JsRe.jsSpace = true)
    (hdp : dp = [] ∨ dp = ['$'])
    (hip : ip ≠ []) (hips : ip.all JsRe.jsDigit = true)
    (hd1 : JsRe.jsDigit d1 = true) (hd2 : JsRe.jsDigit d2 = true) :
    Ocr.tailAmount (w2 ++ dp ++ ip ++ ['.', d1, d2]) = some (amtVal ip d1 d2) := by
  rcases w2 with _ | ⟨c, w2t⟩
  · cases hw2 rfl
  · simp only [List.all_cons, Bool.and_eq_true] at hw2s
    unfold Ocr.tailAmount
    simp only [List.cons_append, List.append_assoc]
    rw [if_pos hw2s.1]
    rw [dropWhile_append_all _ w2t _ hw2s.2]
    rcases hdp with rfl | rfl
    · simp only [List.nil_append]
      rcases ip with _ | ⟨i0, ipt⟩
      · cases hip rfl
      · simp only [List.all_cons, Bool.and_eq_true] at hips
        rw [List.cons_append, List.dropWhile_cons_of_neg (by rw [digit_not_space hips.1]; simp)]
        split
        · rename_i t heq
          rw [List.cons.injEq] at heq
          exact absurd heq.1 (digit_not_dollar hips.1)
        · exact amountEnd_complete (i0 :: ipt) d1 d2 (by simp)
            (by simp [hips.1, hips.2]) hd1 hd2
    · rw [List.cons_append, List.dropWhile_cons_of_neg (by decide)]
      split
      · rename_i t heq
        rw [List.cons.injEq] at heq
        rw [← heq.2, ← List.append_assoc]
        exact amountEnd_complete ip d1 d2 hip hips hd1 hd2
      · rename_i hne
        exact absurd rfl (hne _)

theorem space_not_digit {c : Char} (h : JsRe.jsSpace c = true) : JsRe.jsDigit c = false := by
  rcases hd : JsRe.jsDigit c with _ | _
  · rfl
  · rw [digit_not_space hd] at h
    cases h

theorem itemPat0Go_sound (s : List Char) :
    ∀ acc A amt, Ocr.itemPat0Go acc s = some (A, amt) →
    ∃ n, n + 1 ≤ s.length ∧ A = acc ++ s.take (n + 1) ∧
      Ocr.tailAmount (s.drop (n + 1)) = some amt := by
  induction s with
  | nil =>
      intro acc A amt h
      cases h
  | cons c rest ih =>
      intro acc A amt h
      unfold Ocr.itemPat0Go at h
      rcases hd : JsRe.jsDot c with _ | _
      · rw [hd] at h
        simp at h
      · simp only [hd, if_true] at h
        split at h
        · rename_i a heq
          simp only [Option.some.injEq, Prod.mk.injEq] at h
          refine ⟨0, by simp, ?_, ?_⟩
          · simp [← h.1]
          · simpa [← h.2] using heq
        · obtain ⟨n, hn1, hn2, hn3⟩ := ih (acc ++ [c]) A amt h
          refine ⟨n + 1, by simpa using hn1, ?_, by simpa using hn3⟩
          rw [hn2]
          simp [List.append_assoc]

theorem itemPat0Go_isSome (pre : List Char) :
    ∀ acc rest2 a, pre ≠ [] → pre.all JsRe.jsDot = true →
    Ocr.tailAmount rest2 = some a →
    (Ocr.itemPat0Go acc (pre ++ rest2)).isSome = true := by
  induction pre with
  | nil =>
      intro acc rest2 a h _ _
      cases h rfl
  | cons c pt ih =>
      intro acc rest2 a _ hdot hta
      simp only [List.all_cons, Bool.and_eq_true] at hdot
      unfold Ocr.itemPat0Go
      simp only [List.cons_append]
      rw [hdot.1]
      simp only [if_true]
      rcases pt with _ | ⟨c2, pt2⟩
      · simp only [List.nil_append]
        rw [hta]
        rfl
      · split
        · rfl
        · exact ih (acc ++ [c]) rest2 a (by simp) hdot.2 hta

theorem tailAmount_head_space (c : Char) (y : List Char) (a : Int)
    (h : Ocr.tailAmount (c :: y) = some a) : JsRe.jsSpace c = true := by
  unfold Ocr.tailAmount at h
  rcases hc : JsRe.jsSpace c with _ | _
  · simp only [hc, Bool.false_eq_true, if_false] at h
    cases h
  · rfl

theorem last_not_digit_of_append_all (X sp : List Char) (hsp : sp ≠ [])
    (hprop : ∀ c ∈ sp, JsRe.jsDigit c = false) :
    ∀ u0 cu, X ++ sp = u0 ++ [cu] → JsRe.jsDigit cu = false := by
  intro u0 cu h
  have h1 : (X ++ sp).getLast? = some cu := by
    rw [h]
    exact List.getLast?_concat u0
  rw [List.getLast?_append_of_ne_nil X hsp] at h1
  exact hprop cu (List.mem_of_mem_getLast? h1)

theorem digit_run_align (u front dg ip : List Char)
    (h : u ++ dg = front ++ ip)
    (hdg : dg.all JsRe.jsDigit = true) (hip : ip.all JsRe.jsDigit = true)
    (hu : ∀ u0 cu, u = u0 ++ [cu] → JsRe.jsDigit cu = false)
    (hfront : ∀ f0 cf, front = f0 ++ [cf] → JsRe.jsDigit cf = false) :
    dg = ip := by
  rcases List.append_eq_append_iff.mp h with ⟨mid, hm1, hm2⟩ | ⟨mid, hm1, hm2⟩
  · rcases List.eq_nil_or_concat mid with rfl | ⟨L, b, rfl⟩
    · simpa using hm2
    · exfalso
      have hbf : JsRe.jsDigit b = false :=
        hfront (u ++ L) b (by rw [hm1]; simp [List.concat_eq_append, List.append_assoc])
      have hbt : JsRe.jsDigit b = true := by
        rw [List.all_eq_true] at hdg
        exact hdg b (by rw [hm2]; simp [List.concat_eq_append])
      rw [hbf] at hbt
      cases hbt
  · rcases List.eq_nil_or_concat mid with rfl | ⟨L, b, rfl⟩
    · simpa using hm2.symm
    · exfalso
      have hbf : JsRe.jsDigit b = false :=
        hu (front ++ L) b (by rw [hm1]; simp [List.concat_eq_append, List.append_assoc])
      have hbt : JsRe.jsDigit b = true := by
        rw [List.all_eq_true] at hip
        exact hip b (by rw [hm2]; simp [List.concat_eq_append])
      rw [hbf] at hbt
      cases hbt

theorem itemPat0_shaped (q w1 nm w2 dp ip : List Char) (d1 d2 : Char)
    (hq0 : q ≠ []) (hq : q.all JsRe.jsDigit = true)
    (hw10 : w1 ≠ []) (hw1 : w1.all (fun c => JsRe.jsSpace c && JsRe.jsDot c) = true)
    (hnm0 : nm ≠ []) (hnm : nm.all JsRe.jsDot = true)
    (hw20 : w2 ≠ []) (hw2 : w2.all (fun c => JsRe.jsSpace c && JsRe.jsDot c) = true)
    (hdp : dp = [] ∨ dp = ['$'])
    (hip0 : ip ≠ []) (hip : ip.all JsRe.jsDigit = true)
    (hd1 : JsRe.jsDigit d1 = true) (hd2 : JsRe.jsDigit d2 = true) :
    ∃ A : List Char,
      Ocr.itemPat0 (q ++ w1 ++ nm ++ w2 ++ dp ++ ip ++ ['.', d1, d2]) =
        some (A, amtVal ip d1 d2) ∧
      (Ocr.jsTrim A).take q.length = q := by
  have hw2s : w2.all JsRe.jsSpace = true := by
    rw [List.all_eq_true] at hw2 ⊢
    intro c hc
    have h2 := hw2 c hc
    rw [Bool.and_eq_true] at h2
    exact h2.1
  have hw1dot : w1.all JsRe.jsDot = true := by
    rw [List.all_eq_true] at hw1 ⊢
    intro c hc
    have h2 := hw1 c hc
    rw [Bool.and_eq_true] at h2
    exact h2.2
  have hqdot : q.all JsRe.jsDot = true := by
    rw [List.all_eq_true] at hq ⊢
    intro c hc
    exact digit_dot (hq c hc)
  have hta : Ocr.tailAmount (w2 ++ dp ++ ip ++ ['.', d1, d2]) = some (amtVal ip d1 d2) :=
    tailAmount_complete w2 dp ip d1 d2 hw20 hw2s hdp hip0 hip hd1 hd2
  have hline : q ++ w1 ++ nm ++ w2 ++ dp ++ ip ++ ['.', d1, d2] =
      (q ++ w1 ++ nm) ++ (w2 ++ dp ++ ip ++ ['.', d1, d2]) := by
    simp [List.append_assoc]
  have hpredot : (q ++ w1 ++ nm).all JsRe.jsDot = true := by
    simp [List.all_append, hqdot, hw1dot, hnm]
  have hsome : (Ocr.itemPat0 (q ++ w1 ++ nm ++ w2 ++ dp ++ ip ++ ['.', d1, d2])).isSome = true := by
    unfold Ocr.itemPat0
    rw [hline]
    exact itemPat0Go_isSome (q ++ w1 ++ nm) [] _ _ (by simp [hq0]) hpredot hta
  obtain ⟨⟨A, amt⟩, heq⟩ := Option.isSome_iff_exists.mp hsome
  have heq2 : Ocr.itemPat0Go [] (q ++ w1 ++ nm ++ w2 ++ dp ++ ip ++ ['.', d1, d2]) =
      some (A, amt) := heq
  obtain ⟨n, hn1, hn2, hn3⟩ := itemPat0Go_sound _ [] A amt heq2
  rw [List.nil_append] at hn2
  have hlq : q ++ w1 ++ nm ++ w2 ++ dp ++ ip ++ ['.', d1, d2] =
      q ++ (w1 ++ nm ++ w2 ++ dp ++ ip ++ ['.', d1, d2]) := by
    simp [List.append_assoc]
  have hqlen : q.length ≤ n + 1 := by
    by_contra hlt
    push_neg at hlt
    have hdropline : (q ++ w1 ++ nm ++ w2 ++ dp ++ ip ++ ['.', d1, d2]).drop (n + 1) =
        q.drop (n + 1) ++ (w1 ++ nm ++ w2 ++ dp ++ ip ++ ['.', d1, d2]) := by
      rw [hlq]
      exact List.drop_append_of_le_length (by omega)
    rcases hqd : q.drop (n + 1) with _ | ⟨c0, t0⟩
    · rw [List.drop_eq_nil_iff] at hqd
      omega
    · have hc0 : c0 ∈ q :=
        List.mem_of_mem_drop (l := q) (n := n + 1) (by rw [hqd]; exact List.mem_cons_self _ _)
      have hc0d : JsRe.jsDigit c0 = true := List.all_eq_true.mp hq c0 hc0
      rw [hdropline, hqd, List.cons_append] at hn3
      have hsp := tailAmount_head_space c0 _ amt hn3
      rw [digit_not_space hc0d] at hsp
      cases hsp
  have hAq : A.take q.length = q := by
    rw [hn2, List.take_take, min_eq_left hqlen, hlq,
      List.take_append_of_le_length (le_refl q.length), List.take_length]
  have hamt : amt = amtVal ip d1 d2 := by
    obtain ⟨sp, dollar, r, hdec, hsp0, hsps, hdl, hae⟩ := tailAmount_sound _ amt hn3
    obtain ⟨dg, x, y, hr, hdg0, hdgall, hx, hy, hamt2⟩ := amountEnd_sound r amt hae
    have hline2 : q ++ w1 ++ nm ++ w2 ++ dp ++ ip ++ ['.', d1, d2] =
        ((q ++ w1 ++ nm ++ w2 ++ dp ++ ip ++ ['.', d1, d2]).take (n + 1) ++ sp ++ dollar ++ dg)
          ++ ['.', x, y] := by
      conv_lhs => rw [← List.take_append_drop (n + 1)
        (q ++ w1 ++ nm ++ w2 ++ dp ++ ip ++ ['.', d1, d2])]
      rw [hdec, hr]
      simp [List.append_assoc]
    have hline3 : q ++ w1 ++ nm ++ w2 ++ dp ++ ip ++ ['.', d1, d2] =
        (q ++ w1 ++ nm ++ w2 ++ dp ++ ip) ++ ['.', d1, d2] := by
      simp [List.append_assoc]
    have hcombined := hline2.symm.trans hline3
    obtain ⟨hfrontEq, hsuffix⟩ := List.append_inj' hcombined (by rfl)
    have hxy : x = d1 ∧ y = d2 := by
      simpa using hsuffix
    have hdgip : dg = ip := by
      apply digit_run_align
        ((q ++ w1 ++ nm ++ w2 ++ dp ++ ip ++ ['.', d1, d2]).take (n + 1) ++ sp ++ dollar)
        (q ++ w1 ++ nm ++ w2 ++ dp) dg ip
      · simpa [List.append_assoc] using hfrontEq
      · exact hdgall
      · exact hip
      · rcases hdl with rfl | rfl
        · intro u0 cu hc
          refine last_not_digit_of_append_all
            ((q ++ w1 ++ nm ++ w2 ++ dp ++ ip ++ ['.', d1, d2]).take (n + 1)) sp hsp0
            (fun c hcsp => space_not_digit (List.all_eq_true.mp hsps c hcsp)) u0 cu ?_
          simpa using hc
        · intro u0 cu hc
          refine last_not_digit_of_append_all
            ((q ++ w1 ++ nm ++ w2 ++ dp ++ ip ++ ['.', d1, d2]).take (n + 1) ++ sp) ['$']
            (by simp) (fun c hcd => by
              rcases List.mem_singleton.mp hcd with rfl
              decide) u0 cu ?_
          simpa [List.append_assoc] using hc
      · rcases hdp with rfl | rfl
        · intro f0 cf hc
          refine last_not_digit_of_append_all (q ++ w1 ++ nm) w2 hw20
            (fun c hcw => space_not_digit (List.all_eq_true.mp hw2s c hcw)) f0 cf ?_
          simpa [List.append_assoc] using hc
        · intro f0 cf hc
          refine last_not_digit_of_append_all (q ++ w1 ++ nm ++ w2) ['$']
            (by simp) (fun c hcd => by
              rcases List.mem_singleton.mp hcd with rfl
              decide) f0 cf ?_
          simpa using hc
    rw [hamt2, hdgip, hxy.1, hxy.2]
  refine ⟨A, by rw [← hamt]; exact heq, ?_⟩
  have hAlen : q.length ≤ A.length := by
    have := congrArg List.length hAq
    simp only [List.length_take] at this
    omega
  have hAhead : A.dropWhile JsRe.jsSpace = A := by
    obtain ⟨q0, qt, hqe⟩ := List.exists_cons_of_ne_nil hq0
    have hq1 : 1 ≤ q.length := by
      rw [hqe]
      simp
    have hA0 : A.take 1 = [q0] := by
      have h1 : (A.take q.length).take 1 = q.take 1 := by rw [hAq]
      rw [List.take_take, min_eq_left hq1] at h1
      rw [h1, hqe]
      rfl
    have hAne : A ≠ [] := by
      intro hnil
      rw [hnil] at hA0
      cases hA0
    obtain ⟨a0, at0, hAe⟩ := List.exists_cons_of_ne_nil hAne
    have ha0 : a0 = q0 := by
      rw [hAe] at hA0
      simpa using hA0
    have hq0d : JsRe.jsDigit a0 = true := by
      rw [ha0]
      exact List.all_eq_true.mp hq q0 (by rw [hqe]; exact List.mem_cons_self _ _)
    rw [hAe, List.dropWhile_cons_of_neg]
    rw [digit_not_space hq0d]
    simp
  have htrimR : Ocr.jsTrim A = (A.reverse.dropWhile JsRe.jsSpace).reverse := by
    unfold Ocr.jsTrim
    rw [hAhead]
  have hAdecomp : A = (A.reverse.dropWhile JsRe.jsSpace).reverse ++
      (A.reverse.takeWhile JsRe.jsSpace).reverse := by
    conv_lhs => rw [← List.reverse_reverse A]
    conv_lhs =>
      rw [← List.takeWhile_append_dropWhile JsRe.jsSpace A.reverse]
    rw [List.reverse_append]
  have hSsp : ∀ c ∈ (A.reverse.takeWhile JsRe.jsSpace).reverse, JsRe.jsSpace c = true :=
    fun c hc => List.mem_takeWhile_imp (List.mem_reverse.mp hc)
  have hAlen2 : A.length = (A.reverse.dropWhile JsRe.jsSpace).reverse.length +
      (A.reverse.takeWhile JsRe.jsSpace).reverse.length := by
    conv_lhs => rw [hAdecomp]
    simp
  have hRlen : q.length ≤ (A.reverse.dropWhile JsRe.jsSpace).reverse.length := by
    by_contra hlt
    push_neg at hlt
    have hq2 : A.take q.length = (A.reverse.dropWhile JsRe.jsSpace).reverse ++
        (A.reverse.takeWhile JsRe.jsSpace).reverse.take
          (q.length - (A.reverse.dropWhile JsRe.jsSpace).reverse.length) := by
      conv_lhs => rw [hAdecomp]
      rw [List.take_append_eq_append_take, List.take_of_length_le (le_of_lt hlt)]
    have hS0 : (A.reverse.takeWhile JsRe.jsSpace).reverse.take
        (q.length - (A.reverse.dropWhile JsRe.jsSpace).reverse.length) ≠ [] := by
      intro hnil
      have hlen0 := congrArg List.length hnil
      simp only [List.length_take, List.length_nil] at hlen0
      omega
    rcases List.eq_nil_or_concat q with hqnil | ⟨L, b, hqe⟩
    · exact hq0 hqnil
    · have hbdig : JsRe.jsDigit b = true :=
        List.all_eq_true.mp hq b (by rw [hqe]; simp [List.concat_eq_append])
      have hbnd : JsRe.jsDigit b = false := by
        refine last_not_digit_of_append_all ((A.reverse.dropWhile JsRe.jsSpace).reverse)
          ((A.reverse.takeWhile JsRe.jsSpace).reverse.take
            (q.length - (A.reverse.dropWhile JsRe.jsSpace).reverse.length)) hS0
          (fun c hc => space_not_digit (hSsp c (List.mem_of_mem_take hc))) L b ?_
        rw [← hq2, hAq, hqe, List.concat_eq_append]
      rw [hbnd] at hbdig
      cases hbdig
  rw [htrimR]
  have hfinal : A.take q.length = (A.reverse.dropWhile JsRe.jsSpace).reverse.take q.length := by
    conv_lhs => rw [hAdecomp]
    exact List.take_append_of_le_length hRlen
  rw [← hfinal, hAq]

/-! ### Fixed points of the validator -/

theorem rule3_fixed (r : Ocr.ParsedReceipt) :
    Ocr.mismatch (Ocr.rule3 r) = true → (Ocr.rule3 r).needsReview = true ∧
      (Ocr.rule3 r).reviewReason = some "Items total does not match receipt total" := by
  unfold Ocr.rule3
  rcases hmx : Ocr.mismatch r with _ | _
  · rw [if_neg (by simp)]
    intro h
    rw [hmx] at h
    cases h
  · rw [if_pos rfl]
    intro _
    exact ⟨rfl, rfl⟩

theorem validate_id (today : Int) (x : Ocr.ParsedReceipt)
    (hd : x.date ≠ none) (hs : x.storeName ≠ none)
    (hp : List.Pairwise (fun a b => Ocr.sameKey a b = false) x.items)
    (hm : Ocr.mismatch x = true → x.needsReview = true ∧
      x.reviewReason = some "Items total does not match receipt total") :
    Ocr.validateParsedData today x = x := by
  have hdid : Ocr.removeDuplicateItems x.items = x.items :=
    dedupGo_id x.items [] hp (by simp)
  have hr3 : Ocr.rule3 x = x := by
    unfold Ocr.rule3
    rcases hmx : Ocr.mismatch x with _ | _
    · rw [if_neg (by simp)]
    · rw [if_pos rfl]
      obtain ⟨hnr, hrr⟩ := hm hmx
      rw [← hnr, ← hrr]
  unfold Ocr.validateParsedData
  rw [rule1_id today x hd, rule2_id x hs, hr3, hdid]

/-! ### The claims -/

/-- C1 counterexample: on "03/04/2024" both captured numbers are at most 12,
yet best-date extraction returns the day-first reading "2024-04-03", not the
month-first "2024-03-04" the claim promises: two candidates of equal
confidence arise from the same match, and the recency tie-break of the sort
picks the reading closer to now. -/
theorem c1_counterexample :
    DP.extractDateFromText today0 "03/04/2024" = some "2024-04-03" ∧
    ("2024-04-03" : String) ≠ "2024-03-04" := by
  decide

/-- C1 (amended): at the level of a single ambiguous numeric match,
`parseAmbiguousDate` behaves as claimed — a first number above 12 forces the
day-first reading, a second number above 12 forces the month-first reading,
when exactly one of the two readings passes `isValidDate` that reading is
taken, and on a validity tie the US month-first reading is preferred; the
full extractor honours the forced case ("25/12/2024" gives "2024-12-25") but
on a validity tie ("03/04/2024") its recency tie-break between the two equal
confidence candidates overrides the US preference and returns "2024-04-03". -/
theorem c1_amended :
    (∀ (today : Int) (num1 num2 : Nat) (year : Int), 12 < num1 →
      DP.parseAmbiguousDate today num1 num2 year =
        JsDate.mkDate (DP.normalizeYear year) ((num2 : Int) - 1) num1) ∧
    (∀ (today : Int) (num1 num2 : Nat) (year : Int), num1 ≤ 12 → 12 < num2 →
      DP.parseAmbiguousDate today num1 num2 year =
        JsDate.mkDate (DP.normalizeYear year) ((num1 : Int) - 1) num2) ∧
    (∀ (today : Int) (num1 num2 : Nat) (year : Int), num1 ≤ 12 → num2 ≤ 12 →
      DP.isValidDate today
          (some (JsDate.mkDate (DP.normalizeYear year) ((num1 : Int) - 1) num2)) = true →
      DP.isValidDate today
          (some (JsDate.mkDate (DP.normalizeYear year) ((num2 : Int) - 1) num1)) = false →
      DP.parseAmbiguousDate today num1 num2 year =
        JsDate.mkDate (DP.normalizeYear year) ((num1 : Int) - 1) num2) ∧
    (∀ (today : Int) (num1 num2 : Nat) (year : Int), num1 ≤ 12 → num2 ≤ 12 →
      DP.isValidDate today
          (some (JsDate.mkDate (DP.normalizeYear year) ((num2 : Int) - 1) num1)) = true →
      DP.isValidDate today
          (some (JsDate.mkDate (DP.normalizeYear year) ((num1 : Int) - 1) num2)) = false →
      DP.parseAmbiguousDate today num1 num2 year =
        JsDate.mkDate (DP.normalizeYear year) ((num2 : Int) - 1) num1) ∧
    (∀ (today : Int) (num1 num2 : Nat) (year : Int), num1 ≤ 12 → num2 ≤ 12 →
      DP.isValidDate today
          (some (JsDate.mkDate (DP.normalizeYear year) ((num1 : Int) - 1) num2)) =
        DP.isValidDate today
          (some (JsDate.mkDate (DP.normalizeYear year) ((num2 : Int) - 1) num1)) →
      DP.parseAmbiguousDate today num1 num2 year =
        JsDate.mkDate (DP.normalizeYear year) ((num1 : Int) - 1) num2) ∧
    DP.extractDateFromText today0 "25/12/2024" = some "2024-12-25" ∧
    DP.extractDateFromText today0 "03/04/2024" = some "2024-04-03" := by
  refine ⟨?_, ?_, ?_, ?_, ?_, by decide, by decide⟩
  · intro today num1 num2 year h
    simp only [DP.parseAmbiguousDate]
    rw [if_pos h]
  · intro today num1 num2 year h1 h2
    simp only [DP.parseAmbiguousDate]
    rw [if_neg (by omega), if_pos h2]
  · intro today num1 num2 year h1 h2 hus heu
    simp only [DP.parseAmbiguousDate]
    rw [if_neg (by omega), if_neg (by omega), hus, heu]
    simp
  · intro today num1 num2 year h1 h2 heu hus
    simp only [DP.parseAmbiguousDate]
    rw [if_neg (by omega), if_neg (by omega), hus, heu]
    simp
  · intro today num1 num2 year h1 h2 heq
    simp only [DP.parseAmbiguousDate]
    rw [if_neg (by omega), if_neg (by omega), heq]
    simp

/-- C1 witness: the forced day-first case of the amended claim at the
concrete input 25/12/2024. -/
theorem c1_witness :
    12 < 25 ∧ DP.parseAmbiguousDate today0 25 12 2024 =
      JsDate.mkDate (DP.normalizeYear 2024) ((12 : Int) - 1) 25 :=
  ⟨by decide, c1_amended.1 today0 25 12 2024 (by decide)⟩

/-- C2 counterexample: on "RANDOM NOISE 123" the pipeline does NOT fall back
to "Unknown Store" — the noise line itself is accepted as the store name, so
only the missing-date reason is ever recorded and the reason the claim
expects for the store never appears. -/
theorem c2_counterexample :
    Ocr.parseReceiptText today0 "RANDOM NOISE 123" = .ok c2expected ∧
    c2expected.storeName = some "RANDOM NOISE 123" ∧
    c2expected.reviewReason = some "No date found in receipt" ∧
    containsSeq "Store name not detected".data "No date found in receipt".data = false := by
  decide

/-- C2 (amended): on "RANDOM NOISE 123" the pipeline returns the noise line
itself as the store name (it passes `isStoreName`), the date defaults to
today, and `needsReview` is true with the single reason
"No date found in receipt". -/
theorem c2_amended :
    Ocr.parseReceiptText today0 "RANDOM NOISE 123" = .ok c2expected ∧
    c2expected.date = some (JsDate.isoStringOfDay today0) ∧
    c2expected.needsReview = true ∧
    c2expected.storeName = some "RANDOM NOISE 123" := by
  decide

/-- C3 counterexample: on a draft that triggers all three rules, rule 3 of
ocrService.js OVERWRITES the reasons accumulated by rules 1 and 2 instead of
appending: after rules 1 and 2 both default reasons are present, but the
validated record retains only the mismatch reason, unlike the tesseract
validator, which appends. -/
theorem c3_counterexample :
    (Ocr.rule2 (Ocr.rule1 today0 draftC3)).reviewReason =
      some "No date found in receipt; Store name not detected" ∧
    (Ocr.validateParsedData today0 draftC3).reviewReason =
      some "Items total does not match receipt total" ∧
    (Tess.validateParsedData today0 draftC3).reviewReason =
      some "No date found in receipt; Store name not detected; Items total does not match receipt total" ∧
    (Ocr.validateParsedData today0 draftC3).reviewReason ≠
      (Tess.validateParsedData today0 draftC3).reviewReason := by
  decide

/-- C3 (amended): rules 1 and 2 append their reasons (joined with "; ") and
set `needsReview`; the mismatch rule of tesseractOcrService.js also appends,
but the mismatch rule of ocrService.js ASSIGNS its reason, discarding any
earlier ones; on a draft triggering all three rules the tesseract validator
ends with all three reasons joined. -/
theorem c3_amended :
    (∀ (today : Int) (r : Ocr.ParsedReceipt), r.date = none →
      (Ocr.rule1 today r).reviewReason =
        some (Ocr.appendReason r.reviewReason "No date found in receipt") ∧
      (Ocr.rule1 today r).needsReview = true) ∧
    (∀ r : Ocr.ParsedReceipt, r.storeName = none →
      (Ocr.rule2 r).reviewReason =
        some (Ocr.appendReason r.reviewReason "Store name not detected") ∧
      (Ocr.rule2 r).needsReview = true) ∧
    (∀ r : Ocr.ParsedReceipt, Ocr.mismatch r = true →
      (Ocr.rule3 r).reviewReason = some "Items total does not match receipt total" ∧
      (Ocr.rule3 r).needsReview = true) ∧
    (∀ r : Ocr.ParsedReceipt, Ocr.mismatch r = true →
      (Tess.rule3 r).reviewReason =
        some (Ocr.appendReason r.reviewReason "Items total does not match receipt total") ∧
      (Tess.rule3 r).needsReview = true) ∧
    (Tess.validateParsedData today0 draftC3).reviewReason =
      some "No date found in receipt; Store name not detected; Items total does not match receipt total" := by
  refine ⟨?_, ?_, ?_, ?_, by decide⟩
  · intro today r h
    unfold Ocr.rule1
    rw [if_pos h]
    exact ⟨rfl, rfl⟩
  · intro r h
    unfold Ocr.rule2
    rw [if_pos h]
    exact ⟨rfl, rfl⟩
  · intro r h
    unfold Ocr.rule3
    rw [if_pos h]
    exact ⟨rfl, rfl⟩
  · intro r h
    unfold Tess.rule3
    rw [if_pos h]
    exact ⟨rfl, rfl⟩

/-- C3 witness: the assigning mismatch rule of ocrService.js at the concrete
draft that triggers it. -/
theorem c3_witness :
    Ocr.mismatch draftC3 = true ∧
    (Ocr.rule3 draftC3).reviewReason = some "Items total does not match receipt total" ∧
    (Ocr.rule3 draftC3).needsReview = true :=
  ⟨by decide, c3_amended.2.2.1 draftC3 (by decide)⟩

/-- C4 counterexample: validation is NOT idempotent — on a draft whose two
duplicate Milk items sum exactly to the stated total, the first pass merges
the duplicates (halving the item-price sum) without flagging anything, and
the second pass then sees a mismatch and flips `needsReview` to true. -/
theorem c4_counterexample :
    Ocr.validateParsedData today0 (Ocr.validateParsedData today0 draftC4) ≠
      Ocr.validateParsedData today0 draftC4 ∧
    (Ocr.validateParsedData today0 draftC4).needsReview = false ∧
    (Ocr.validateParsedData today0 (Ocr.validateParsedData today0 draftC4)).needsReview
      = true := by
  decide

/-- C4 (amended): validation IS idempotent on every draft whose items list
carries no duplicate (name, price) key — deduplication then changes nothing,
so the second pass sees the same items, the date and store name are present
after the first pass, and the mismatch rule fires the second time exactly
when it fired the first. Only drafts whose duplicate merging changes the
item-price sum (the counterexample) escape this. -/
theorem c4_amended (today : Int) (r : Ocr.ParsedReceipt)
    (hp : List.Pairwise (fun a b => Ocr.sameKey a b = false) r.items) :
    Ocr.validateParsedData today (Ocr.validateParsedData today r) =
      Ocr.validateParsedData today r := by
  have hi1 : (Ocr.rule1 today r).items = r.items := (rule1_fields today r).1
  have hi2 : (Ocr.rule2 (Ocr.rule1 today r)).items = r.items := by
    rw [(rule2_fields _).1, hi1]
  have hi3 : (Ocr.rule3 (Ocr.rule2 (Ocr.rule1 today r))).items = r.items := by
    rw [(rule3_fields _).1, hi2]
  have hdid : Ocr.removeDuplicateItems (Ocr.rule3 (Ocr.rule2 (Ocr.rule1 today r))).items =
      (Ocr.rule3 (Ocr.rule2 (Ocr.rule1 today r))).items := by
    rw [hi3]
    exact dedupGo_id r.items [] hp (by simp)
  have hv : Ocr.validateParsedData today r = Ocr.rule3 (Ocr.rule2 (Ocr.rule1 today r)) := by
    unfold Ocr.validateParsedData
    rw [hdid]
  rw [hv]
  refine validate_id today _ ?_ ?_ ?_ (rule3_fixed _)
  · rw [(rule3_fields _).2.2.1, (rule2_fields _).2.2]
    exact rule1_date_some today r
  · rw [(rule3_fields _).2.2.2]
    exact rule2_store_some _
  · rw [hi3]
    exact hp

/-- C4 witness: idempotence of validation at a concrete draft with a single
item (its singleton items list trivially has pairwise distinct keys). -/
theorem c4_witness :
    List.Pairwise (fun a b => Ocr.sameKey a b = false) draftC3.items ∧
    Ocr.validateParsedData today0 (Ocr.validateParsedData today0 draftC3) =
      Ocr.validateParsedData today0 draftC3 :=
  ⟨by simp [draftC3], c4_amended today0 draftC3 (by simp [draftC3])⟩

/-- C5: after validation the items list is pairwise distinct in
(name, price); deduplication keeps the first occurrence of each key in place
and gives it the sum of the quantities of its group (exactly as the spec
words it whenever every parsed quantity is at least 1, which makes the
`quantity or 1` fallback of the source the identity); in particular two
identical Milk items collapse to one with quantity 2. -/
theorem c5_dedup :
    (∀ (today : Int) (r : Ocr.ParsedReceipt),
      List.Pairwise (fun a b => Ocr.sameKey a b = false)
        (Ocr.validateParsedData today r).items) ∧
    (∀ items : List Ocr.LineItem, (∀ it ∈ items, 1 ≤ it.quantity) →
      Ocr.removeDuplicateItems items = dedupSpecSum items) ∧
    Ocr.removeDuplicateItems [milkItem, milkItem] = [{ milkItem with quantity := 2 }] := by
  refine ⟨?_, ?_, by decide⟩
  · intro today r
    show List.Pairwise _
      (Ocr.removeDuplicateItems (Ocr.rule3 (Ocr.rule2 (Ocr.rule1 today r))).items)
    exact dedupGo_pairwise _ []
  · intro items h
    have h2 := dedupGo_spec items [] h
    simpa using h2

/-- C5 witness: the dedup law at the two concrete Milk items. -/
theorem c5_witness :
    (∀ it ∈ [milkItem, milkItem], 1 ≤ it.quantity) ∧
    Ocr.removeDuplicateItems [milkItem, milkItem] = dedupSpecSum [milkItem, milkItem] :=
  ⟨by decide, c5_dedup.2.1 [milkItem, milkItem] (by decide)⟩

/-- C6 counterexample: the two-digit-year rule of ocrService.js maps 45 to
2045, while the claimed normalization (00 to 30 in the 2000s, 31 to 99 in
the 1900s) would map it to 1945: the services split at 50, not at 30. -/
theorem c6_counterexample :
    Ocr.twoDigitYearMap 45 = 2045 ∧ (2045 : Nat) ≠ 1900 + 45 := by
  decide

/-- C6 (amended): the date-parser module (`normalizeYear`) splits two-digit
years at 30 as the claim says, but ocrService.js and tesseractOcrService.js
split at 50: years below 50 land in the 2000s and years 50 to 99 in the
1900s. -/
theorem c6_amended :
    (∀ y : Int, 0 ≤ y → y ≤ 30 → DP.normalizeYear y = 2000 + y) ∧
    (∀ y : Int, 31 ≤ y → y ≤ 99 → DP.normalizeYear y = 1900 + y) ∧
    (∀ y : Nat, y < 50 → Ocr.twoDigitYearMap y = 2000 + y) ∧
    (∀ y : Nat, 50 ≤ y → y ≤ 99 → Ocr.twoDigitYearMap y = 1900 + y) := by
  refine ⟨?_, ?_, ?_, ?_⟩
  · intro y h1 h2
    unfold DP.normalizeYear
    rw [if_neg (by omega), if_pos (by omega), if_pos (by omega)]
  · intro y h1 h2
    unfold DP.normalizeYear
    rw [if_neg (by omega), if_pos (by omega), if_neg (by omega)]
  · intro y h
    unfold Ocr.twoDigitYearMap
    rw [if_pos h]
  · intro y h1 h2
    unfold Ocr.twoDigitYearMap
    rw [if_neg (by omega)]

/-- C6 witness: the amended normalizations at the concrete years 7 and 45. -/
theorem c6_witness :
    ((0 : Int) ≤ 7 ∧ (7 : Int) ≤ 30 ∧ DP.normalizeYear 7 = 2000 + 7) ∧
    (45 < 50 ∧ Ocr.twoDigitYearMap 45 = 2000 + 45) :=
  ⟨⟨by decide, by decide, c6_amended.1 7 (by decide) (by decide)⟩,
    ⟨by decide, c6_amended.2.2.1 45 (by decide)⟩⟩

/-- C7 counterexample: the lower edge of the plausibility window is NOT
"today minus 10 years": at a current date of 2026-10-11 the extractor
accepts 2016-02-01, which lies more than ten years back (before 2016-10-11,
the day the claimed window would start) — the code compares against
January 1 of the year ten years before instead. -/
theorem c7_counterexample :
    DP.extractDateFromText today0 "2016-02-01" = some "2016-02-01" ∧
    JsDate.daysFromCivil 2016 2 1 < specWindowLow today0 ∧
    ("2016-02-01" : String) = JsDate.isoStringOfDay (JsDate.daysFromCivil 2016 2 1) := by
  decide

theorem ocrDateLoop_window (today : Int) (line : List Char) (ps : List JsRe.RE) (s : String)
    (h : Ocr.ocrDateLoop today line ps = some s) :
    ∃ d : Int, JsDate.daysFromCivil (JsDate.yearOf today - 5) 1 1 ≤ d ∧ d ≤ today + 1 ∧
      s = JsDate.isoStringOfDay d := by
  induction ps with
  | nil => simp [Ocr.ocrDateLoop] at h
  | cons re rest ih =>
      unfold Ocr.ocrDateLoop at h
      split at h
      · exact ih h
      · rename_i m hm
        have h2 : (match Ocr.parseVariousDateFormats
            (match m.grp 1 with
              | some g => if g.isEmpty then m.matched else g
              | none => m.matched) with
          | some d =>
              if JsDate.daysFromCivil (JsDate.yearOf today - 5) 1 1 ≤ d && d ≤ today + 1 then
                some (JsDate.isoStringOfDay d)
              else Ocr.ocrDateLoop today line rest
          | none => Ocr.ocrDateLoop today line rest) = some s := h
        rcases hp : Ocr.parseVariousDateFormats (match m.grp 1 with
            | some g => if g.isEmpty then m.matched else g
            | none => m.matched) with _ | d
        · rw [hp] at h2
          exact ih h2
        · rw [hp] at h2
          split at h2
          · rename_i a ha
            injection ha with had
            subst had
            split at h2
            · rename_i hw
              injection h2 with h3
              rw [Bool.and_eq_true] at hw
              exact ⟨d, of_decide_eq_true hw.1, of_decide_eq_true hw.2, h3.symm⟩
            · exact ih h2
          · rename_i ha
            cases ha

/-- C7 (amended): every date an extraction implementation returns comes
from a candidate that survived that implementation's own validity window,
so unparsable candidates and candidates outside the window are discarded —
but the two windows differ, and neither is exactly the claimed one. The
date-parser module accepts [January 1 of (year - 10), today + 7 days],
whose lower edge reaches back before "today minus 10 years"; extractDate of
ocrService.js accepts [January 1 of (year - 5), today + 1 day], a window
contained in the claimed one (at the reference date the containment of the
lower edges is checked concretely below). -/
theorem c7_amended :
    (∀ (today : Int) (text : String) (s : String),
      DP.extractDateFromText today text = some s →
      ∃ d : Int, JsDate.daysFromCivil (JsDate.yearOf today - 10) 1 1 ≤ d ∧
        d ≤ today + 7 ∧ s = JsDate.isoStringOfDay d) ∧
    (∀ (today : Int) (line : List Char) (s : String),
      Ocr.extractDate today line = some s →
      ∃ d : Int, JsDate.daysFromCivil (JsDate.yearOf today - 5) 1 1 ≤ d ∧
        d ≤ today + 1 ∧ s = JsDate.isoStringOfDay d) ∧
    specWindowLow today0 ≤ JsDate.daysFromCivil (JsDate.yearOf today0 - 5) 1 1 ∧
    JsDate.daysFromCivil (JsDate.yearOf today0 - 10) 1 1 < specWindowLow today0 := by
  refine ⟨?_, ?_, by decide, by decide⟩
  · intro today text s h
    unfold DP.extractDateFromText at h
    split at h
    · cases h
    · split at h
      · cases h
      · rename_i best hbest
        injection h with h2
        refine ⟨best.date, ?_, ?_, h2.symm⟩
        · exact (isValidDate_bounds today best.date
            (foundDates_valid today text.data best (selectBest_mem today _ best hbest))).1
        · exact (isValidDate_bounds today best.date
            (foundDates_valid today text.data best (selectBest_mem today _ best hbest))).2
  · intro today line s h
    exact ocrDateLoop_window today line Ocr.ocrDatePatterns s h

/-- C7 witness: the window bounds of the date-parser conjunct of the
amended claim at the concrete extraction from "2016-02-01". -/
theorem c7_witness :
    DP.extractDateFromText today0 "2016-02-01" = some "2016-02-01" ∧
    ∃ d : Int, JsDate.daysFromCivil (JsDate.yearOf today0 - 10) 1 1 ≤ d ∧
      d ≤ today0 + 7 ∧ ("2016-02-01" : String) = JsDate.isoStringOfDay d :=
  ⟨by decide, c7_amended.1 today0 "2016-02-01" "2016-02-01" (by decide)⟩

/-- C8: the pipeline signals its one hard error exactly on whitespace-only
input (for every current date and text), and an input with no date-shaped
substring at all — none of the eleven patterns matches "no dates here" —
makes best-date extraction return the absent value for every current date,
with no error. -/
theorem c8_errors :
    (∀ (today : Int) (text : String),
      (∃ e, Ocr.parseReceiptText today text = .error e) ↔
        text.data.all JsRe.jsSpace = true) ∧
    (∀ today : Int, DP.extractDateFromText today "no dates here" = none) := by
  constructor
  · intro today text
    constructor
    · rintro ⟨e, he⟩
      unfold Ocr.parseReceiptText at he
      split at he
      · rename_i hc
        exact (jsTrim_eq_nil_iff _).mp (List.isEmpty_iff.mp hc)
      · cases he
    · intro hws
      refine ⟨"No text extracted from receipt", ?_⟩
      unfold Ocr.parseReceiptText
      rw [if_pos (List.isEmpty_iff.mpr ((jsTrim_eq_nil_iff _).mpr hws))]
  · intro today
    have h1 : JsRe.execAll DP.reNumFull "no dates here".data = [] := by decide
    have h2 : JsRe.execAll DP.reIso "no dates here".data = [] := by decide
    have h3 : JsRe.execAll DP.reShortYear "no dates here".data = [] := by decide
    have h4 : JsRe.execAll DP.reMonthNameShort "no dates here".data = [] := by decide
    have h5 : JsRe.execAll DP.reMonthNameFull "no dates here".data = [] := by decide
    have h6 : JsRe.execAll DP.reReverseMonthName "no dates here".data = [] := by decide
    have h7 : JsRe.execAll DP.reCompact "no dates here".data = [] := by decide
    have h8 : JsRe.execAll DP.reWithTime "no dates here".data = [] := by decide
    have h9 : JsRe.execAll DP.reReceiptDate "no dates here".data = [] := by decide
    have h10 : JsRe.execAll DP.reTransactionDate "no dates here".data = [] := by decide
    have hfd : DP.foundDates today "no dates here".data = [] := by
      simp only [DP.foundDates, DP.datePatterns, DP.runPattern, List.map_cons, List.map_nil,
        h1, h2, h3, h4, h5, h6, h7, h8, h9, h10, List.filterMap_nil, List.flatten_cons,
        List.flatten_nil, List.append_nil]
    unfold DP.extractDateFromText
    rw [if_neg (by decide), hfd]
    rfl

/-- C8 witness: the hard-error characterization at the concrete
whitespace-only input. -/
theorem c8_witness :
    (∃ e, Ocr.parseReceiptText today0 "   " = .error e) ↔
      "   ".data.all JsRe.jsSpace = true :=
  c8_errors.1 today0 "   "

/-- C9 counterexample: "1 Taxi $20.00" has exactly the claimed
quantity-name-amount shape, yet `extractLineItem` returns no item at all:
the keyword screen runs first and the letters "tax" inside "Taxi" make the
line a non-item line. -/
theorem c9_counterexample :
    "1 Taxi $20.00".data =
      "1".data ++ " ".data ++ "Taxi".data ++ " ".data ++ "$".data ++
        "20".data ++ ['.', '0', '0'] ∧
    "1".data.all JsRe.jsDigit = true ∧
    "Taxi".data.all JsRe.jsDot = true ∧
    "20".data.all JsRe.jsDigit = true ∧
    Ocr.extractLineItem "1 Taxi $20.00".data "".data = none := by
  decide

/-- C9 (amended): on every quantity-name-amount line that first survives the
non-item keyword screen, `extractLineItem` answers from the name-amount
pattern, which is tried first: the result has quantity 1 and a name whose
leading characters are the quantity digits, so the dedicated
quantity-name-amount pattern never gets to run on such a line. Lines the
screen rejects (such as "1 Taxi $20.00") yield no item at all. -/
theorem c9_amended (q w1 nm w2 dp ip : List Char) (d1 d2 : Char) (nextLine : List Char)
    (hline : Ocr.isNonItemLine (q ++ w1 ++ nm ++ w2 ++ dp ++ ip ++ ['.', d1, d2]) = false)
    (hq0 : q ≠ []) (hq : q.all JsRe.jsDigit = true)
    (hw10 : w1 ≠ []) (hw1 : w1.all (fun c => JsRe.jsSpace c && JsRe.jsDot c) = true)
    (hnm0 : nm ≠ []) (hnm : nm.all JsRe.jsDot = true)
    (hw20 : w2 ≠ []) (hw2 : w2.all (fun c => JsRe.jsSpace c && JsRe.jsDot c) = true)
    (hdp : dp = [] ∨ dp = ['$'])
    (hip0 : ip ≠ []) (hip : ip.all JsRe.jsDigit = true)
    (hd1 : JsRe.jsDigit d1 = true) (hd2 : JsRe.jsDigit d2 = true) :
    ∃ A : List Char,
      Ocr.extractLineItem (q ++ w1 ++ nm ++ w2 ++ dp ++ ip ++ ['.', d1, d2]) nextLine =
        some { name := String.mk (Ocr.jsTrim A), price := amtVal ip d1 d2, quantity := 1 } ∧
      (Ocr.jsTrim A).take q.length = q := by
  obtain ⟨A, hA, hAq⟩ := itemPat0_shaped q w1 nm w2 dp ip d1 d2
    hq0 hq hw10 hw1 hnm0 hnm hw20 hw2 hdp hip0 hip hd1 hd2
  refine ⟨A, ?_, hAq⟩
  unfold Ocr.extractLineItem
  rw [if_neg (by rw [hline]; simp), hA]

/-- C9 witness: the amended claim at the concrete line "2 Milk $3.50",
whose item comes out with quantity 1 and name "2 Milk". -/
theorem c9_witness :
    Ocr.isNonItemLine ("2".data ++ " ".data ++ "Milk".data ++ " ".data ++ "$".data ++
        "3".data ++ ['.', '5', '0']) = false ∧
    ∃ A : List Char,
      Ocr.extractLineItem ("2".data ++ " ".data ++ "Milk".data ++ " ".data ++ "$".data ++
          "3".data ++ ['.', '5', '0']) [] =
        some { name := String.mk (Ocr.jsTrim A), price := amtVal "3".data '5' '0',
               quantity := 1 } ∧
      (Ocr.jsTrim A).take "2".data.length = "2".data :=
  ⟨by decide, c9_amended "2".data " ".data "Milk".data " ".data "$".data "3".data '5' '0' []
    (by decide) (by decide) (by decide) (by decide) (by decide) (by decide) (by decide)
    (by decide) (by decide) (Or.inr (by decide)) (by decide) (by decide) (by decide)
    (by decide)⟩

/-- C10 counterexample: a subtotal line does match the total extractor, but
not necessarily with the SAME amount — on "Total: $5.00 Subtotal: $8.00" the
subtotal extractor captures 8.00 while the total extractor, scanning for the
leftmost "total", commits 5.00 instead. -/
theorem c10_counterexample :
    Ocr.extractSubtotal "Total: $5.00 Subtotal: $8.00".data = some 800 ∧
    Ocr.extractTotal "Total: $5.00 Subtotal: $8.00".data = some 500 ∧
    Ocr.isMoreLikelyTotal "Total: $5.00 Subtotal: $8.00".data = true ∧
    (500 : Int) ≠ 800 := by
  decide

/-- C10 (amended): whenever the subtotal keyword pattern captures an amount
on a line, the total keyword pattern also matches that line (the letters
"total" sit inside "subtotal"), the line passes the strong-override
indicator test `isMoreLikelyTotal`, and the subtotal extractor returns the
captured amount unconditionally; the total side is gated — the amount the
total extractor commits is the one captured at the leftmost occurrence of
"total", and only when it lies strictly between 0 and 1000000 cents. So on
"Subtotal: $8.00" (leftmost capture in range) the committed total equals the
subtotal 8.00, while on "Subtotal: $15000.00" the subtotal is set to
15000.00 but no total is committed at all, the gate having rejected the
capture and no other total keyword matching. -/
theorem c10_amended :
    (∀ (line : List Char) (a : Int), Ocr.scanKwAmount "subtotal".data line = some a →
      (Ocr.scanKwAmount "total".data line).isSome = true ∧
      Ocr.isMoreLikelyTotal line = true ∧
      Ocr.extractSubtotal line = some a) ∧
    (∀ (line : List Char) (b : Int), Ocr.scanKwAmount "total".data line = some b →
      0 < b → b < 1000000 → Ocr.extractTotal line = some b) ∧
    Ocr.extractTotal "Subtotal: $8.00".data = some 800 ∧
    Ocr.extractSubtotal "Subtotal: $8.00".data = some 800 ∧
    Ocr.extractSubtotal "Subtotal: $15000.00".data = some 1500000 ∧
    Ocr.extractTotal "Subtotal: $15000.00".data = none := by
  refine ⟨?_, ?_, by decide, by decide, by decide, by decide⟩
  case refine_2 =>
    intro line b h h1 h2
    simp only [Ocr.extractTotal, Ocr.totalLoop, h]
    rw [if_pos ⟨h1, h2⟩]
  intro line a h
  obtain ⟨n, hn⟩ := scanFirst_some_drop _ line a h
  rcases hk : Ocr.kwAt "subtotal".data (line.drop n) with _ | r
  · rw [hk] at hn
    cases hn
  · rw [hk] at hn
    have hsplit : Ocr.kwAt ("sub".data ++ "total".data) (line.drop n) = some r := hk
    obtain ⟨s2, hk1, hk2⟩ := kwAt_append "sub".data "total".data (line.drop n) r hsplit
    have hs2 := kwAt_drop "sub".data (line.drop n) s2 hk1
    have hg : (Ocr.kwAt "total".data (line.drop (n + "sub".data.length))).bind Ocr.afterKw
        = some a := by
      rw [← List.drop_drop, ← hs2, hk2]
      exact hn
    have hg2 : Ocr.kwAt "total".data (line.drop (n + "sub".data.length)) = some r := by
      rw [← List.drop_drop, ← hs2]
      exact hk2
    refine ⟨?_, ?_, ?_⟩
    · exact scanFirst_isSome_of _ line _ a hg
    · have hci : Ocr.containsCi "total".data line = true := by
        unfold Ocr.containsCi
        exact scanFirst_isSome_of _ line _ r hg2
      unfold Ocr.isMoreLikelyTotal
      rw [hci]
      simp
    · simp only [Ocr.extractSubtotal, Ocr.firstSome, h]

/-- C10 witness: the amended claim at the concrete line "Subtotal: $8.00". -/
theorem c10_witness :
    Ocr.scanKwAmount "subtotal".data "Subtotal: $8.00".data = some 800 ∧
    ((Ocr.scanKwAmount "total".data "Subtotal: $8.00".data).isSome = true ∧
      Ocr.isMoreLikelyTotal "Subtotal: $8.00".data = true ∧
      Ocr.extractSubtotal "Subtotal: $8.00".data = some 800) :=
  ⟨by decide, c10_amended.1 "Subtotal: $8.00".data 800 (by decide)⟩
